import Mathlib

/-!
Shallow embedding of `msh/conditioners/base.py` (the conditioning subsystem):
the condition data model (`WavCondition`, `ConditionAttributes`), the shared
conditioner post-processing (`BaseConditioner.forward`), the two dropout
policies (`AttributeDropout`, `ClassifierFreeGuidanceDropout`) over an
explicit object store that models Python's reference semantics, the
condition provider's collation and preparation, and the condition fuser.

Tensors produced by conditioners are modelled as nested lists of rationals
(`[B][T][D]`); raw waveform tensors, whose rank is checked at run time by
the code, are modelled as a list of dimensions plus flat row-major data.
The `torch.Generator` owned by a dropout module is modelled as a stream
`g : Nat → ℚ` of uniform draws together with a counter of how many draws
have been consumed.
-/

/-- The first condition family name, element of `ConditionAttributes.condition_types()`. -/
def ctText : String := "text"

/-- The second condition family name, element of `ConditionAttributes.condition_types()`. -/
def ctWav : String := "wav"

/-- Fusing method name used by `ConditionFuser`. -/
def opSum : String := "sum"

/-- Fusing method name used by `ConditionFuser`. -/
def opPrepend : String := "prepend"

/-- Fusing method name used by `ConditionFuser`. -/
def opCross : String := "cross"

/-- Message of the `ValueError` raised by `dropout_condition_` on a bad condition type. -/
def msgBadConditionType : String := "dropout_condition got an unexpected condition type!"

/-- Message of the `ValueError` raised by `dropout_condition_` on a condition name absent from the sample. -/
def msgBadCondition : String := "dropout_condition received an unexpected condition!"

/-- Message of the `assert wav.dim() == 3` failure in `ConditionProvider._collate_wavs`. -/
def msgWavDim : String := "Got wav with unexpected dim, but expected 3"

/-- Message of the `assert wav.size(0) == 1` failure in `ConditionProvider._collate_wavs`. -/
def msgWavLeading : String := "Got wav with unexpected shape, but expected B == 1"

/-- Message of the sample-rate assertion in `ConditionProvider._collate_wavs`. -/
def msgSampleRates : String := "All sample rates in batch should match."

/-- Message of the unknown-attribute assertion in `ConditionProvider.prepare`. -/
def msgUnexpectedAttr : String := "Got an unexpected attribute!"

/-- Message of the unknown-attribute assertion in `ConditionFuser.forward`. -/
def msgFuserAttr : String := "given conditions contain unknown attributes for fuser"

/-- Message of the `ValueError` raised by `ConditionFuser.forward` on an unknown op. -/
def msgUnknownOp : String := "unknown op"

/-- Python exceptions that the embedded code can raise. -/
inductive PyError
  | keyError (key : String)
  | indexError
  | assertionError (msg : String)
  | valueError (msg : String)
  | runtimeMissingInputs (names : List String)
deriving DecidableEq

/-- Concatenation of the images of `f`, in order (Python `list.extend` in a loop). -/
def concatMap (f : α → List β) : List α → List β
  | [] => []
  | a :: as => f a ++ concatMap f as

/-- Python `dict` lookup on an association list (first matching key). -/
def lookupKey (k : String) : List (String × β) → Option β
  | [] => none
  | kv :: rest => if kv.1 = k then some kv.2 else lookupKey k rest

/-- Product of a list of dimensions. -/
def natProd (l : List Nat) : Nat := l.foldl (· * ·) 1

instance {ε α : Type} [DecidableEq ε] [DecidableEq α] : DecidableEq (Except ε α) := fun
  | .ok a, .ok b =>
      if h : a = b then .isTrue (by rw [h]) else .isFalse (by intro hc; cases hc; exact h rfl)
  | .ok _, .error _ => .isFalse (by intro h; cases h)
  | .error _, .ok _ => .isFalse (by intro h; cases h)
  | .error e, .error e' =>
      if h : e = e' then .isTrue (by rw [h]) else .isFalse (by intro hc; cases hc; exact h rfl)

/-- A conditioner-output tensor of shape `[B][T][D]`. -/
abbrev Tensor3 := List (List (List ℚ))

/-- A boolean mask of shape `[B][T]`. -/
abbrev Mask2 := List (List Bool)

/-- The batch dimension of a `[B][T][D]` tensor. -/
def batchLen (x : Tensor3) : Nat := x.length

/-- The time dimension of a `[B][T][D]` tensor (as reported by `shape`). -/
def timeLen (x : Tensor3) : Nat := ((x.head?).map List.length).getD 0

/-- The channel dimension of a `[B][T][D]` tensor (as reported by `shape`). -/
def chanLen (x : Tensor3) : Nat := (((x.head?).bind List.head?).map List.length).getD 0

/-- The `(B, T, D)` shape of a `[B][T][D]` tensor. -/
def shape3 (x : Tensor3) : Nat × Nat × Nat := (batchLen x, timeLen x, chanLen x)

/-- Entry `[b][t]` of a `[B][T]` boolean mask. -/
def idx2 (m : Mask2) (b t : Nat) : Bool := (m.getD b []).getD t false

/-- Channel vector `[b][t]` of a `[B][T][D]` tensor. -/
def idx3v (x : Tensor3) (b t : Nat) : List ℚ := (x.getD b []).getD t []

/-- An all-zero `[B][T][D]` tensor. -/
def zeros3 (b t d : Nat) : Tensor3 :=
  List.replicate b (List.replicate t (List.replicate d (0 : ℚ)))

/-- A raw tensor of arbitrary rank: its shape and its flat row-major data.
Used for waveforms, whose rank the source checks at run time. -/
structure AnyTensor where
  dims : List Nat
  data : List ℚ
deriving DecidableEq

/-- The first slice `x[0]` of a tensor whose leading dimension is 1. -/
def AnyTensor.index0 (x : AnyTensor) : AnyTensor :=
  ⟨x.dims.drop 1, x.data.take (natProd (x.dims.drop 1))⟩

/-- Input for waveform based conditionings; `wav` should always be
3-dim `[B, C, T]` even before collation. -/
structure WavCondition where
  wav : AnyTensor
  length : List Nat
  sample_rate : Nat
  path : List (Option String)
  seek_time : List (Option ℚ)
deriving DecidableEq

/-- Shape of `wav[:, :, :1]` for a 3-dim waveform tensor `[B, C, T]`.
For `T = 0` the slice is empty, hence the `min`. (A `WavCondition` is
documented to always hold a 3-dim tensor; other ranks are left unchanged.) -/
def sliceLastTo1 (dims : List Nat) : List Nat :=
  match dims with
  | [b, c, t] => [b, c, min 1 t]
  | ds => ds

/-- `nullify_wav`: utility function for nullifying a `WavCondition` object. -/
def nullify_wav (w : WavCondition) : WavCondition :=
  ⟨⟨sliceLastTo1 w.wav.dims, List.replicate (natProd (sliceLastTo1 w.wav.dims)) 0⟩,
   List.replicate w.length.length 0,
   w.sample_rate,
   List.replicate w.path.length none,
   List.replicate w.seek_time.length none⟩

/-- The output projection of a `BaseConditioner`: `nn.Linear` (with optional
bias) or `nn.Identity`. -/
inductive OutputProj
  | identity
  | linear (weight : List (List ℚ)) (bias : Option (List ℚ))
deriving DecidableEq

/-- Dot product of two rational vectors. -/
def dotQ (v w : List ℚ) : ℚ := (List.zipWith (· * ·) v w).foldl (· + ·) 0

/-- Apply the output projection to one channel vector. -/
def OutputProj.apply : OutputProj → List ℚ → List ℚ
  | .identity, v => v
  | .linear weight bias, v =>
      let o := weight.map (fun row => dotQ row v)
      match bias with
      | none => o
      | some b => List.zipWith (· + ·) o b

/-- A `BaseConditioner` as constructed: its dims, whether empty conditioning
is padded, its output projection and its (optional) learnt padding vector. -/
structure BaseConditioner where
  dim : Nat
  output_dim : Nat
  pad_empty : Bool
  output_proj : OutputProj
  learnt_padding : Option (List ℚ)
deriving DecidableEq

/-- The blend `cond * maskf + learnt_padding * (1 - maskf)` (respectively
`cond * maskf` without learnt padding) at one position. -/
def blendFn (c : BaseConditioner) (v : List ℚ) (m : Bool) : List ℚ :=
  let mf : ℚ := if m then 1 else 0
  match c.learnt_padding with
  | some p => List.zipWith (fun x y => x * mf + y * (1 - mf)) v p
  | none => v.map (fun x => x * mf)

/-- `BaseConditioner.forward`: the shared post-processing applied to the raw
`(condition, mask)` produced by `_get_condition`. The dtype cast is the
identity in this rational model. -/
def BaseConditioner.forward (c : BaseConditioner) (cond0 : Tensor3) (mask0 : Mask2) :
    Tensor3 × Mask2 :=
  let B := batchLen cond0
  let T := timeLen cond0
  let cond1 := if T = 0 ∧ c.pad_empty then List.replicate B ([] : List (List ℚ)) else cond0
  let mask1 := if T = 0 ∧ c.pad_empty then List.replicate B ([] : List Bool) else mask0
  let cond2 := cond1.map (fun row => row.map c.output_proj.apply)
  let blended := List.zipWith
    (fun row mrow => List.zipWith (blendFn c) row mrow)
    cond2 mask1
  (blended, mask1)

/-- One example's text conditions: attribute name to optional string. -/
abbrev TextDict := List (String × Option String)

/-- One example's wav conditions: attribute name to `WavCondition`. -/
abbrev WavDict := List (String × WavCondition)

/-- The object store modelling Python's heap of attribute dictionaries:
address `a` holds the `text` dict `texts[a]` or the `wav` dict `wavs[a]`. -/
structure Store where
  texts : List TextDict
  wavs : List WavDict
deriving DecidableEq

/-- A `ConditionAttributes` object: references into the store for its two dicts. -/
structure CARef where
  textAddr : Nat
  wavAddr : Nat
deriving DecidableEq

def Store.getText (s : Store) (a : Nat) : TextDict := s.texts.getD a []

def Store.getWav (s : Store) (a : Nat) : WavDict := s.wavs.getD a []

def Store.setText (s : Store) (a : Nat) (d : TextDict) : Store := ⟨s.texts.set a d, s.wavs⟩

def Store.setWav (s : Store) (a : Nat) (d : WavDict) : Store := ⟨s.texts, s.wavs.set a d⟩

/-- `ConditionAttributes.copy()`: allocate fresh dicts holding the same entries. -/
def caCopy (s : Store) (r : CARef) : Store × CARef :=
  (⟨s.texts ++ [s.getText r.textAddr], s.wavs ++ [s.getWav r.wavAddr]⟩,
   ⟨s.texts.length, s.wavs.length⟩)

/-- `[ca.copy() for ca in batch]`. -/
def copyAll (s : Store) : List CARef → Store × List CARef
  | [] => (s, [])
  | r :: rs =>
      let p := caCopy s r
      let q := copyAll p.1 rs
      (q.1, p.2 :: q.2)

/-- Python dict value assignment `d[key] = None` on a text dict. -/
def updateTextValue (d : TextDict) (key : String) : TextDict :=
  d.map (fun kv => if kv.1 = key then (kv.1, (none : Option String)) else kv)

/-- Python dict value assignment `d[key] = nullify_wav(d[key])` on a wav dict. -/
def updateWavValue (d : WavDict) (key : String) : WavDict :=
  d.map (fun kv => if kv.1 = key then (kv.1, nullify_wav kv.2) else kv)

/-- All values of a text dict set to `None`. -/
def setAllTextNone (d : TextDict) : TextDict :=
  d.map (fun kv => (kv.1, (none : Option String)))

/-- All values of a wav dict nullified. -/
def nullifyWavDict (d : WavDict) : WavDict :=
  d.map (fun kv => (kv.1, nullify_wav kv.2))

/-- The values of the listed keys of a text dict set to `None` (intermediate
state of the nullification loop). -/
def setNoneKeys (ks : List String) (d : TextDict) : TextDict :=
  d.map (fun kv => if kv.1 ∈ ks then (kv.1, (none : Option String)) else kv)

/-- The values of the listed keys of a wav dict nullified (intermediate
state of the nullification loop). -/
def nullifyKeys (ks : List String) (d : WavDict) : WavDict :=
  d.map (fun kv => if kv.1 ∈ ks then (kv.1, nullify_wav kv.2) else kv)

/-- `dropout_condition_`: nullify one attribute of one `ConditionAttributes`
object, in place (here: in the store). -/
def dropout_condition (s : Store) (r : CARef) (ctype cname : String) :
    Except PyError Store :=
  if ctype ≠ ctText ∧ ctype ≠ ctWav then .error (.valueError msgBadConditionType)
  else if ctype = ctWav then
    if (lookupKey cname (s.getWav r.wavAddr)).isSome then
      .ok (s.setWav r.wavAddr (updateWavValue (s.getWav r.wavAddr) cname))
    else .error (.valueError msgBadCondition)
  else
    if (lookupKey cname (s.getText r.textAddr)).isSome then
      .ok (s.setText r.textAddr (updateTextValue (s.getText r.textAddr) cname))
    else .error (.valueError msgBadCondition)

/-- Run `dropout_condition_` on each of the given condition names in order. -/
def dropKeys (r : CARef) (ctype : String) : List String → Store → Except PyError Store
  | [], s => .ok s
  | k :: ks, s =>
      match dropout_condition s r ctype k with
      | .ok s' => dropKeys r ctype ks s'
      | .error e => .error e

/-- The `condition_type == "text"` pass of `ClassifierFreeGuidanceDropout.forward`:
for each sample, nullify every text condition it holds. -/
def cfgTextPhase : List CARef → Store → Except PyError Store
  | [], s => .ok s
  | r :: rs, s =>
      match dropKeys r ctText ((s.getText r.textAddr).map Prod.fst) s with
      | .ok s' => cfgTextPhase rs s'
      | .error e => .error e

/-- The `condition_type == "wav"` pass of `ClassifierFreeGuidanceDropout.forward`. -/
def cfgWavPhase : List CARef → Store → Except PyError Store
  | [], s => .ok s
  | r :: rs, s =>
      match dropKeys r ctWav ((s.getWav r.wavAddr).map Prod.fst) s with
      | .ok s' => cfgWavPhase rs s'
      | .error e => .error e

/-- Reference store transformer: set every text value of every listed sample to `None`. -/
def storeTextAll : List CARef → Store → Store
  | [], s => s
  | r :: rs, s => storeTextAll rs (s.setText r.textAddr (setAllTextNone (s.getText r.textAddr)))

/-- Reference store transformer: nullify every wav value of every listed sample. -/
def storeWavAll : List CARef → Store → Store
  | [], s => s
  | r :: rs, s => storeWavAll rs (s.setWav r.wavAddr (nullifyWavDict (s.getWav r.wavAddr)))

/-- `ClassifierFreeGuidanceDropout.forward`. `p` is the dropout probability,
`g` the stream of uniform draws of the module's generator, `k` how many draws
have been consumed so far, `training` the module's mode. -/
def ClassifierFreeGuidanceDropout.forward (p : ℚ) (g : Nat → ℚ) (training : Bool)
    (k : Nat) (s : Store) (samples : List CARef) :
    Except PyError (Store × List CARef × Nat) :=
  if training = false then .ok (s, samples, k)
  else if g k < p then
    match cfgTextPhase (copyAll s samples).2 (copyAll s samples).1 with
    | .error e => .error e
    | .ok s1 =>
        match cfgWavPhase (copyAll s samples).2 s1 with
        | .error e => .error e
        | .ok s2 => .ok (s2, (copyAll s samples).2, k + 1)
  else .ok (s, samples, k + 1)

/-- The innermost loop of `AttributeDropout.forward`: for each condition name
of one family held by one sample, if it has a configured probability, draw
and possibly nullify it. -/
def adKeys (dropouts : List (String × ℚ)) (g : Nat → ℚ) (r : CARef) (ctype : String) :
    List String → Store → Nat → Except PyError (Store × Nat)
  | [], s, k => .ok (s, k)
  | key :: keys, s, k =>
      match lookupKey key dropouts with
      | none => adKeys dropouts g r ctype keys s k
      | some p =>
          if g k < p then
            match dropout_condition s r ctype key with
            | .ok s' => adKeys dropouts g r ctype keys s' (k + 1)
            | .error e => .error e
          else adKeys dropouts g r ctype keys s (k + 1)

/-- Process one sample of `AttributeDropout.forward`: both condition families. -/
def adSample (dropouts : List (String × ℚ)) (g : Nat → ℚ) (r : CARef)
    (s : Store) (k : Nat) : Except PyError (Store × Nat) :=
  match adKeys dropouts g r ctText ((s.getText r.textAddr).map Prod.fst) s k with
  | .ok sk => adKeys dropouts g r ctWav ((sk.1.getWav r.wavAddr).map Prod.fst) sk.1 sk.2
  | .error e => .error e

/-- The sample loop of `AttributeDropout.forward`. -/
def adBatch (dropouts : List (String × ℚ)) (g : Nat → ℚ) :
    List CARef → Store → Nat → Except PyError (Store × Nat)
  | [], s, k => .ok (s, k)
  | r :: rs, s, k =>
      match adSample dropouts g r s k with
      | .ok sk => adBatch dropouts g rs sk.1 sk.2
      | .error e => .error e

/-- `AttributeDropout.forward`. -/
def AttributeDropout.forward (dropouts : List (String × ℚ)) (active_on_eval : Bool)
    (training : Bool) (g : Nat → ℚ) (k : Nat) (s : Store) (batch : List CARef) :
    Except PyError (Store × List CARef × Nat) :=
  if training = false ∧ active_on_eval = false then .ok (s, batch, k)
  else
    match adBatch dropouts g (copyAll s batch).2 (copyAll s batch).1 k with
    | .ok sk => .ok (sk.1, (copyAll s batch).2, sk.2)
    | .error e => .error e

/-- A `ConditionAttributes` value as seen by the provider (no mutation there). -/
structure CAVal where
  text : TextDict
  wav : WavDict
deriving DecidableEq

/-- The family of a registered conditioner (`_BaseTextConditioner` or
`_BaseWaveformConditioner`). -/
inductive CondKind
  | text
  | wav
deriving DecidableEq

/-- `ConditionProvider`: the registry from attribute name to conditioner family. -/
structure ConditionProvider where
  conditioners : List (String × CondKind)
deriving DecidableEq

/-- The registered text-family attribute names, in registration order. -/
def ConditionProvider.text_conditions (P : ConditionProvider) : List String :=
  P.conditioners.filterMap (fun kv => if kv.2 = CondKind.text then some kv.1 else none)

/-- The registered waveform-family attribute names, in registration order. -/
def ConditionProvider.wav_conditions (P : ConditionProvider) : List String :=
  P.conditioners.filterMap (fun kv => if kv.2 = CondKind.wav then some kv.1 else none)

/-- The collated text batches: attribute name to one optional string per example. -/
abbrev TextBatches := List (String × List (Option String))

/-- `out[condition].append(value)` on a `defaultdict(list)`. -/
def appendTextBatch (out : TextBatches) (k : String) (v : Option String) : TextBatches :=
  if (lookupKey k out).isSome then
    out.map (fun kv => if kv.1 = k then (kv.1, kv.2 ++ [v]) else kv)
  else out ++ [(k, [v])]

/-- Inner loop of `ConditionProvider._collate_text`: one sample, every
registered text condition (`KeyError` when the sample lacks one). -/
def collateTextOne (t : TextDict) : List String → TextBatches → Except PyError TextBatches
  | [], out => .ok out
  | c :: cs, out =>
      match lookupKey c t with
      | some v => collateTextOne t cs (appendTextBatch out c v)
      | none => .error (.keyError c)

/-- `ConditionProvider._collate_text`. -/
def ConditionProvider._collate_text (P : ConditionProvider) :
    List CAVal → TextBatches → Except PyError TextBatches
  | [], out => .ok out
  | ca :: cas, out =>
      match collateTextOne ca.text P.text_conditions out with
      | .ok out' => P._collate_text cas out'
      | .error e => .error e

/-- The per-sample data accumulated by the first loop of `_collate_wavs`
for one attribute: `wav[0]`, length, sample rate, paths and seek times. -/
structure WavEntry where
  wav0 : AnyTensor
  length : List Nat
  sr : Nat
  path : List (Option String)
  seek : List (Option ℚ)
deriving DecidableEq

/-- The accumulator of the first loop of `_collate_wavs` (the five
per-attribute `defaultdict(list)`s, grouped per attribute). -/
abbrev WavAcc := List (String × List WavEntry)

/-- Append one entry to one attribute's accumulated list. -/
def appendWavEntry (acc : WavAcc) (k : String) (e : WavEntry) : WavAcc :=
  if (lookupKey k acc).isSome then
    acc.map (fun kv => if kv.1 = k then (kv.1, kv.2 ++ [e]) else kv)
  else acc ++ [(k, [e])]

/-- Inner loop of the first `_collate_wavs` loop: one sample, every registered
wav condition, with the rank and leading-dimension assertions. -/
def collateWavOne (w : WavDict) : List String → WavAcc → Except PyError WavAcc
  | [], acc => .ok acc
  | c :: cs, acc =>
      match lookupKey c w with
      | none => .error (.keyError c)
      | some wc =>
          if wc.wav.dims.length ≠ 3 then .error (.assertionError msgWavDim)
          else if wc.wav.dims.getD 0 0 ≠ 1 then .error (.assertionError msgWavLeading)
          else
            collateWavOne w cs
              (appendWavEntry acc c
                ⟨wc.wav.index0, wc.length, wc.sample_rate, wc.path, wc.seek_time⟩)

/-- The first (sample) loop of `ConditionProvider._collate_wavs`. -/
def wavLoop1 (wcs : List String) : List CAVal → WavAcc → Except PyError WavAcc
  | [], acc => .ok acc
  | ca :: cas, acc =>
      match collateWavOne ca.wav wcs acc with
      | .ok acc' => wavLoop1 wcs cas acc'
      | .error e => .error e

/-- Modelled from the spec: the external `stack_and_pad_audio` primitive of
`msh.data.audio_utils` (not part of this repository slice) — "stack and pad
variable-length waveforms to a common length". Each input is a `[C, T_i]`
tensor; the output is `[N, C, max T_i]` with zero padding. -/
def stack_and_pad_audio (ws : List AnyTensor) : AnyTensor :=
  let T := (ws.map (fun w => w.dims.getD 1 0)).foldl max 0
  let C := ((ws.head?).map (fun w => w.dims.getD 0 0)).getD 0
  ⟨[ws.length, C, T],
   concatMap (fun w =>
     let t := w.dims.getD 1 0
     (List.range (C * T)).map (fun i =>
       if i % T < t then w.data.getD (i / T * t + i % T) 0 else 0)) ws⟩

/-- The second (attribute) loop of `ConditionProvider._collate_wavs`:
`sample_rates[attribute][0]` raises `IndexError` on an empty batch, the
sample-rate assertion, then stacking and metadata concatenation. -/
def wavLoop2 (acc : WavAcc) : List String → Except PyError (List (String × WavCondition))
  | [] => .ok []
  | c :: cs =>
      match (lookupKey c acc).getD [] with
      | [] => .error .indexError
      | e0 :: es =>
          if ((e0 :: es).all (fun e => e.sr = e0.sr)) then
            match wavLoop2 acc cs with
            | .ok rest =>
                .ok ((c, ⟨stack_and_pad_audio ((e0 :: es).map (fun e => e.wav0)),
                      concatMap (fun e => e.length) (e0 :: es),
                      e0.sr,
                      concatMap (fun e => e.path) (e0 :: es),
                      concatMap (fun e => e.seek) (e0 :: es)⟩) :: rest)
            | .error e => .error e
          else .error (.assertionError msgSampleRates)

/-- `ConditionProvider._collate_wavs`. -/
def ConditionProvider._collate_wavs (P : ConditionProvider) (samples : List CAVal) :
    Except PyError (List (String × WavCondition)) :=
  match wavLoop1 P.wav_conditions samples [] with
  | .ok acc => wavLoop2 acc P.wav_conditions
  | .error e => .error e

/-- One attribute's accumulated entry list (`defaultdict` read). -/
def lookupEntries (acc : WavAcc) (c : String) : List WavEntry :=
  (lookupKey c acc).getD []

/-- The entry the first `_collate_wavs` loop accumulates for attribute `c`
of a sample whose wav dict is `w` (junk when the sample lacks `c`; the loop
raises before using it in that case). -/
def entryOfW (w : WavDict) (c : String) : WavEntry :=
  match lookupKey c w with
  | some wc => ⟨wc.wav.index0, wc.length, wc.sample_rate, wc.path, wc.seek_time⟩
  | none => ⟨⟨[], []⟩, [], 0, [], []⟩

/-- The `missing_inputs` set of `ConditionProvider.prepare`, in registry order. -/
def missingOf (P : ConditionProvider) (textKeys wavKeys : List String) : List String :=
  (P.conditioners.map Prod.fst).filter (fun k => decide (k ∉ textKeys ∧ k ∉ wavKeys))

/-- The opaque `Prepared` value returned per attribute by `prepare`: the
collated raw batch handed to the attribute's conditioner. -/
inductive PreparedVal
  | textP (batch : List (Option String))
  | wavP (w : WavCondition)
deriving DecidableEq

/-- `ConditionProvider.prepare`: collate, check the collated attribute names
against the registry, check every registered conditioner was fed, and hand
each collated batch to its conditioner. -/
def ConditionProvider.prepare (P : ConditionProvider) (inputs : List CAVal) :
    Except PyError (List (String × PreparedVal)) :=
  match P._collate_text inputs [] with
  | .error e => .error e
  | .ok text =>
      match P._collate_wavs inputs with
      | .error e => .error e
      | .ok wavs =>
          if ¬ (∀ k ∈ text.map Prod.fst ++ wavs.map Prod.fst,
                  k ∈ P.conditioners.map Prod.fst) then
            .error (.assertionError msgUnexpectedAttr)
          else
            let missing := missingOf P (text.map Prod.fst) (wavs.map Prod.fst)
            if missing ≠ [] then .error (.runtimeMissingInputs missing)
            else .ok (text.map (fun kv => (kv.1, PreparedVal.textP kv.2)) ++
                      wavs.map (fun kv => (kv.1, PreparedVal.wavP kv.2)))

/-- A produced condition: tensor and validity mask (`ConditionType`). -/
structure ConditionTypeV where
  condition : Tensor3
  mask : Mask2
deriving DecidableEq

/-- `ConditionFuser` configuration. -/
structure ConditionFuser where
  fuse2cond : List (String × List String)
  cross_attention_pos_emb : Bool
  cross_attention_pos_emb_scale : ℚ
deriving DecidableEq

/-- Python dict assignment with override (`d[k] = v`). -/
def dictInsert (d : List (String × String)) (k v : String) : List (String × String) :=
  if (lookupKey k d).isSome then d.map (fun kv => if kv.1 = k then (kv.1, v) else kv)
  else d ++ [(k, v)]

/-- The inverse mapping condition-name to fuse-method built at construction. -/
def ConditionFuser.cond2fuse (f : ConditionFuser) : List (String × String) :=
  f.fuse2cond.foldl (fun d mcs => mcs.2.foldl (fun d' c => dictInsert d' c mcs.1) d) []

/-- `input += cond` with the time dimension broadcast when the condition has
a single time step (torch broadcasting on the time axis). -/
def addTime (inp cond : Tensor3) : Tensor3 :=
  List.zipWith
    (fun irow crow =>
      match crow with
      | [v] => irow.map (fun x => List.zipWith (· + ·) x v)
      | _ => List.zipWith (fun x y => List.zipWith (· + ·) x y) irow crow)
    inp cond

/-- `torch.cat([a, b], dim=1)`. -/
def catTime (a b : Tensor3) : Tensor3 := List.zipWith (· ++ ·) a b

/-- Add the scaled sinusoidal positional embedding to the cross-attention
stream (`create_sin_embedding` is an external pure function, passed in). -/
def applyPosEmb (scale : ℚ) (sinEmb : Nat → Nat → List (List ℚ)) (ca : Tensor3) : Tensor3 :=
  let pe := sinEmb (timeLen ca) (chanLen ca)
  ca.map (fun row => List.zipWith (fun v ev => List.zipWith (fun x y => x + scale * y) v ev) row pe)

/-- One iteration of the condition loop of `ConditionFuser.forward`. -/
def fuseStep (f : ConditionFuser) (first_step : Bool)
    (acc : Tensor3 × Option Tensor3) (kc : String × ConditionTypeV) :
    Except PyError (Tensor3 × Option Tensor3) :=
  match lookupKey kc.1 f.cond2fuse with
  | none => .error (.keyError kc.1)
  | some op =>
      if op = opSum then .ok (addTime acc.1 kc.2.condition, acc.2)
      else if op = opPrepend then
        .ok (if first_step then catTime kc.2.condition acc.1 else acc.1, acc.2)
      else if op = opCross then
        .ok (acc.1, some (match acc.2 with
          | some ca => catTime ca kc.2.condition
          | none => kc.2.condition))
      else .error (.valueError msgUnknownOp)

/-- The condition loop of `ConditionFuser.forward`. -/
def fuseLoop (f : ConditionFuser) (first_step : Bool) :
    List (String × ConditionTypeV) → Tensor3 × Option Tensor3 →
    Except PyError (Tensor3 × Option Tensor3)
  | [], acc => .ok acc
  | kc :: kcs, acc =>
      match fuseStep f first_step acc kc with
      | .ok acc' => fuseLoop f first_step kcs acc'
      | .error e => .error e

/-- `ConditionFuser.forward`. `st` is the streaming state (`offsets` when
present), `is_streaming` whether a streaming session is open; the returned
third component is the streaming state after the call. -/
def ConditionFuser.forward (f : ConditionFuser) (sinEmb : Nat → Nat → List (List ℚ))
    (is_streaming : Bool) (st : Option (List Nat)) (input : Tensor3)
    (conditions : List (String × ConditionTypeV)) :
    Except PyError (Tensor3 × Option Tensor3 × Option (List Nat)) :=
  let B := batchLen input
  let T := timeLen input
  let first_step := st.isNone
  let offsets := st.getD (List.replicate B 0)
  if ¬ (∀ kc ∈ conditions, (lookupKey kc.1 f.cond2fuse).isSome = true) then
    .error (.assertionError msgFuserAttr)
  else
    match fuseLoop f first_step conditions (input, none) with
    | .error e => .error e
    | .ok acc =>
        let cross :=
          if f.cross_attention_pos_emb then
            match acc.2 with
            | some ca => some (applyPosEmb f.cross_attention_pos_emb_scale sinEmb ca)
            | none => none
          else acc.2
        let st' := if is_streaming then some (offsets.map (· + T)) else st
        .ok (acc.1, cross, st')

/-- Attribute name used in the examples. -/
def genreK : String := "genre"

/-- Attribute name used in the examples. -/
def descriptionK : String := "description"

/-- Attribute name used in the examples. -/
def lyricsK : String := "lyrics"

/-- Attribute name not present in any registry, used in the examples. -/
def moodK : String := "mood"

/-- Attribute name used in the examples. -/
def bpmK : String := "bpm"

/-- Waveform attribute name used in the examples. -/
def selfWavK : String := "self_wav"

/-- Text value used in the examples. -/
def rockV : String := "Rock"

/-- Text value used in the examples. -/
def sadV : String := "sad"

/-- A degenerate sinusoidal-embedding stand-in for calls where the fuser's
positional-embedding flag is off (the branch is never taken then). -/
def sinEmbZero : Nat → Nat → List (List ℚ) := fun _ _ => []

/-- A constant draw stream (every uniform draw returns 0). -/
def gZero : Nat → ℚ := fun _ => 0

/-- The fuser of the streaming example: `genre` fuses by sum, `description`
by cross, `lyrics` by prepend; no cross-attention positional embedding. -/
def fuserEx : ConditionFuser :=
  ⟨[(opSum, [genreK]), (opCross, [descriptionK]), (opPrepend, [lyricsK])], false, 1⟩

/-- The `[2, 5, 8]` input of the streaming example. -/
def inputEx : Tensor3 := zeros3 2 5 8

/-- The `[2, 3, 8]` cross condition of the streaming example. -/
def descCT : ConditionTypeV := ⟨zeros3 2 3 8, List.replicate 2 (List.replicate 3 true)⟩

/-- The `[2, 3, 8]` prepend condition of the streaming example. -/
def lyrCT : ConditionTypeV := ⟨zeros3 2 3 8, List.replicate 2 (List.replicate 3 true)⟩

/-- The conditions dict of the streaming example. -/
def condsEx : List (String × ConditionTypeV) := [(descriptionK, descCT), (lyricsK, lyrCT)]

/-- First streaming call of the fuser example. -/
def fuseEx1 : Except PyError (Tensor3 × Option Tensor3 × Option (List Nat)) :=
  ConditionFuser.forward fuserEx sinEmbZero true none inputEx condsEx

/-- Second streaming call of the fuser example, carrying the stored offsets. -/
def fuseEx2 : Except PyError (Tensor3 × Option Tensor3 × Option (List Nat)) :=
  match fuseEx1 with
  | .ok r => ConditionFuser.forward fuserEx sinEmbZero true r.2.2 inputEx condsEx
  | .error e => .error e

/-- A conditioner with `pad_empty` enabled, identity projection and no
learnt padding (the `C3` failing configuration). -/
def padEmptyCond : BaseConditioner := ⟨4, 4, true, .identity, none⟩

/-- A raw condition of shape `[1, 0, _]`: one example, zero time steps. -/
def emptyCond3 : Tensor3 := [[]]

/-- The mask of shape `[1, 0]` matching `emptyCond3`. -/
def emptyMask2 : Mask2 := [[]]

/-- A conditioner with identity projection and a learnt padding vector,
used to witness the masking blend. -/
def blendCond : BaseConditioner := ⟨1, 1, true, .identity, some [(9 : ℚ)]⟩

/-- A `[1, 2, 1]` raw condition used to witness the masking blend. -/
def blendInput : Tensor3 := [[[3], [5]]]

/-- The `[1, 2]` mask (valid then padding) used to witness the masking blend. -/
def blendMask : Mask2 := [[true, false]]

/-- A two-sample waveform condition used by the `nullify_wav` example. -/
def wavEx : WavCondition :=
  ⟨⟨[2, 3, 5], List.replicate 30 1⟩, [5, 5], 44100, [none, none], [some 0, none]⟩

/-- A waveform condition whose tensor has zero samples (`[1, 1, 0]`). -/
def wavEmptyEx : WavCondition := ⟨⟨[1, 1, 0], []⟩, [0], 24000, [none], [none]⟩

/-- A waveform condition of shape `[1, 1, 2]` used by the collation example. -/
def wavColEx : WavCondition := ⟨⟨[1, 1, 2], [0, 0]⟩, [2], 24000, [none], [none]⟩

/-- The store of the dropout examples: one sample holding one text and one
wav attribute, at address 0. -/
def storeEx : Store := ⟨[[(genreK, some rockV)]], [[(bpmK, wavColEx)]]⟩

/-- The batch of the dropout examples: the single sample at address 0. -/
def refsEx : List CARef := [⟨0, 0⟩]

/-- The store after `AttributeDropout` (with no configured probabilities)
copied the single sample of `storeEx`. -/
def storeExCopied : Store :=
  ⟨[[(genreK, some rockV)], [(genreK, some rockV)]], [[(bpmK, wavColEx)], [(bpmK, wavColEx)]]⟩

/-- A store holding one sample with one text attribute and no wav attributes. -/
def storeTextOnly : Store := ⟨[[(genreK, some rockV)]], [[]]⟩

/-- A provider registering a single text conditioner for `genre`. -/
def provText : ConditionProvider := ⟨[(genreK, CondKind.text)]⟩

/-- A provider registering a single waveform conditioner for `self_wav`. -/
def provWav : ConditionProvider := ⟨[(selfWavK, CondKind.wav)]⟩

/-- A sample feeding `provText`. -/
def caGenre : CAVal := ⟨[(genreK, some rockV)], []⟩

/-- A sample feeding `provText` that also carries an attribute (`mood`)
unknown to the registry. -/
def caGenreExtra : CAVal := ⟨[(genreK, some rockV), (moodK, some sadV)], []⟩

/-- A sample feeding `provWav`. -/
def caWav : CAVal := ⟨[], [(selfWavK, wavColEx)]⟩

/-- The prepared output of `provText` on `[caGenre]`. -/
def prepOutText : List (String × PreparedVal) := [(genreK, PreparedVal.textP [some rockV])]

/-- The collated output of `provWav` on `[caWav]`. -/
def collateOutWav : List (String × WavCondition) :=
  [(selfWavK, ⟨⟨[1, 1, 2], [0, 0]⟩, [2], 24000, [none], [none]⟩)]

/-!
Theorems. Claim theorems are named `Cn_...`; helper lemmas carry no claim name.
-/

/-- C1: with `genre` fusing by sum, `description` by cross and `lyrics` by
prepend, the first streaming `fuse` call on a `[2,5,8]` input with a `[2,3,8]`
cross condition and a `[2,3,8]` prepend condition returns a `[2,8,8]` fused
input and a `[2,3,8]` cross-attention stream, storing per-example offsets 5;
the second streaming call on a new `[2,5,8]` input returns a `[2,5,8]` fused
input (the prepend content is not applied again) and the stored per-example
offset after it equals 10. -/
theorem C1_fuser_streaming_example :
    (fuseEx1.map (fun r => (shape3 r.1, r.2.1.map shape3, r.2.2)) =
      .ok ((2, 8, 8), some (2, 3, 8), some [5, 5])) ∧
    (fuseEx2.map (fun r => (shape3 r.1, r.2.1.map shape3, r.2.2)) =
      .ok ((2, 5, 8), some (2, 3, 8), some [10, 10])) := by
  constructor <;> decide

/-- C3: with `pad_empty` enabled and a raw condition of time length zero,
`BaseConditioner.forward` does NOT pad the conditioning to length 1: the
returned condition keeps time length 0 (the code builds `torch.zeros(B, T, C)`
with `T == 0`), contradicting the docstring "conditionings of 0 length will
be padded to have length 1". -/
theorem C3_pad_empty_keeps_time_zero :
    BaseConditioner.forward padEmptyCond emptyCond3 emptyMask2 = ([[]], [[]]) ∧
    timeLen (BaseConditioner.forward padEmptyCond emptyCond3 emptyMask2).1 = 0 := by
  constructor <;> decide

/-- C8 counterexample: on a waveform whose tensor has zero samples
(`[1, 1, 0]`), `nullify_wav` returns a tensor whose last dimension is 0,
not 1 — the claim's "last dimension of size 1 ... regardless of w's input
length" fails at length 0. -/
theorem C8_counterexample_empty_wav :
    (nullify_wav wavEmptyEx).wav.dims = [1, 1, 0] ∧
    (nullify_wav wavEmptyEx).wav.dims ≠ [1, 1, 1] := by
  constructor <;> decide

/-- C8 (amended): for every `WavCondition` whose tensor is `[b, c, t]` with
at least one sample (`0 < t`), `nullify_wav` returns a wav tensor of shape
`[b, c, 1]` filled with zeros, an all-zero length of the same entry count,
the same sample rate, and cleared path/seek-time lists of the same entry
counts. -/
theorem C8_nullify_wav_amended (w : WavCondition) (b c t : Nat)
    (h : w.wav.dims = [b, c, t]) (ht : 0 < t) :
    (nullify_wav w).wav.dims = [b, c, 1] ∧
    (nullify_wav w).wav.data = List.replicate (b * c) 0 ∧
    (nullify_wav w).length = List.replicate w.length.length 0 ∧
    (nullify_wav w).sample_rate = w.sample_rate ∧
    (nullify_wav w).path = List.replicate w.path.length none ∧
    (nullify_wav w).seek_time = List.replicate w.seek_time.length none := by
  have hmin : min 1 t = 1 := Nat.min_eq_left ht
  simp [nullify_wav, sliceLastTo1, h, hmin, natProd, List.foldl]

/-- C8 witness: the amended theorem applied to the concrete `[2, 3, 5]`
waveform condition. -/
theorem C8_nullify_wav_witness :
    (nullify_wav wavEx).wav.dims = [2, 3, 1] ∧
    (nullify_wav wavEx).wav.data = List.replicate (2 * 3) 0 ∧
    (nullify_wav wavEx).length = List.replicate wavEx.length.length 0 ∧
    (nullify_wav wavEx).sample_rate = wavEx.sample_rate ∧
    (nullify_wav wavEx).path = List.replicate wavEx.path.length none ∧
    (nullify_wav wavEx).seek_time = List.replicate wavEx.seek_time.length none :=
  C8_nullify_wav_amended wavEx 2 3 5 (by decide) (by decide)

/-- C5 counterexample: `ClassifierFreeGuidanceDropout` offers no
configuration that keeps it active during evaluation: its only configuration
is the probability (and seed), and even at probability 1 — where training
mode nullifies the batch — evaluation mode returns the batch unchanged
without consuming a draw. -/
theorem C5_counterexample :
    ClassifierFreeGuidanceDropout.forward 1 gZero false 0 storeTextOnly refsEx =
      .ok (storeTextOnly, refsEx, 0) ∧
    ClassifierFreeGuidanceDropout.forward 1 gZero true 0 storeTextOnly refsEx ≠
      .ok (storeTextOnly, refsEx, 0) := by
  constructor <;> decide

/-- C6 counterexample: `prepare` succeeds on a batch whose example carries
the attribute `mood`, unknown to the registry — the unknown attribute is
silently ignored, not fatal. -/
theorem C6_counterexample_unknown_attr_ignored :
    ConditionProvider.prepare provText [caGenreExtra] = .ok prepOutText := by
  decide

/-- C10 counterexample: with a waveform conditioner registered, `prepare`
on an empty batch fails with the `IndexError` from `sample_rates[attribute][0]`
in `_collate_wavs`, not with the missing-input error naming the conditioners. -/
theorem C10_counterexample_wav_registry :
    ConditionProvider.prepare provWav [] = .error .indexError ∧
    ConditionProvider.prepare provWav [] ≠
      .error (.runtimeMissingInputs [selfWavK]) := by
  constructor <;> decide

theorem getD_set_self {α : Type} (l : List α) :
    ∀ (i : Nat) (d x : α), i < l.length → (l.set i x).getD i d = x := by
  induction l with
  | nil => intro i d x h; simp at h
  | cons a l ih =>
      intro i d x h
      cases i with
      | zero => rfl
      | succ i => simpa [List.getD] using ih i d x (by simpa using h)

theorem getD_set_ne {α : Type} (l : List α) :
    ∀ (i j : Nat) (d x : α), i ≠ j → (l.set i x).getD j d = l.getD j d := by
  induction l with
  | nil => intro i j d x _; simp
  | cons a l ih =>
      intro i j d x h
      cases i with
      | zero =>
          cases j with
          | zero => exact absurd rfl h
          | succ j => simp [List.getD]
      | succ i =>
          cases j with
          | zero => simp [List.getD]
          | succ j => simpa [List.getD] using ih i j d x (by omega)

theorem getD_append_left {α : Type} (l1 l2 : List α) :
    ∀ (i : Nat) (d : α), i < l1.length → (l1 ++ l2).getD i d = l1.getD i d := by
  induction l1 with
  | nil => intro i d h; simp at h
  | cons a l1 ih =>
      intro i d h
      cases i with
      | zero => rfl
      | succ i => simpa [List.getD] using ih i d (by simpa using h)

theorem getD_append_add {α : Type} (l1 l2 : List α) :
    ∀ (i : Nat) (d : α), (l1 ++ l2).getD (l1.length + i) d = l2.getD i d := by
  induction l1 with
  | nil => intro i d; simp
  | cons a l1 ih =>
      intro i d
      have harith : (a :: l1).length + i = (l1.length + i) + 1 := by
        simp; omega
      rw [harith, List.cons_append, List.getD_cons_succ]
      exact ih i d

theorem set_getD_self {α : Type} (l : List α) :
    ∀ (i : Nat) (d : α), i < l.length → l.set i (l.getD i d) = l := by
  induction l with
  | nil => intro i d h; simp at h
  | cons a l ih =>
      intro i d h
      cases i with
      | zero => rfl
      | succ i => simpa [List.getD] using ih i d (by simpa using h)

theorem getD_mem {α : Type} (l : List α) :
    ∀ (i : Nat) (d : α), i < l.length → l.getD i d ∈ l := by
  induction l with
  | nil => intro i d h; simp at h
  | cons a l ih =>
      intro i d h
      cases i with
      | zero => simp [List.getD]
      | succ i =>
          rw [List.getD_cons_succ]
          exact List.mem_cons_of_mem a (ih i d (by simpa using h))

theorem getD_map {α β : Type} (f : α → β) (l : List α) :
    ∀ (i : Nat) (d : α) (d' : β), i < l.length → (l.map f).getD i d' = f (l.getD i d) := by
  induction l with
  | nil => intro i d d' h; simp at h
  | cons a l ih =>
      intro i d d' h
      cases i with
      | zero => rfl
      | succ i => simpa [List.getD] using ih i d d' (by simpa using h)

theorem getD_zipWith {α β γ : Type} (f : α → β → γ) :
    ∀ (l1 : List α) (l2 : List β) (i : Nat) (da : α) (db : β) (dc : γ),
      i < l1.length → i < l2.length →
      (List.zipWith f l1 l2).getD i dc = f (l1.getD i da) (l2.getD i db) := by
  intro l1
  induction l1 with
  | nil => intro l2 i da db dc h1 _; simp at h1
  | cons a l1 ih =>
      intro l2 i da db dc h1 h2
      cases l2 with
      | nil => simp at h2
      | cons b l2 =>
          cases i with
          | zero => rfl
          | succ i =>
              simpa [List.getD] using
                ih l2 i da db dc (by simpa using h1) (by simpa using h2)

theorem lookupKey_isSome_iff {β : Type} (k : String) (d : List (String × β)) :
    (lookupKey k d).isSome = true ↔ k ∈ d.map Prod.fst := by
  induction d with
  | nil => simp [lookupKey]
  | cons kv rest ih =>
      by_cases h : kv.1 = k
      · simp [lookupKey, h]
      · simp [lookupKey, h, ih, Ne.symm h]

theorem updateTextValue_map_fst (d : TextDict) (key : String) :
    (updateTextValue d key).map Prod.fst = d.map Prod.fst := by
  unfold updateTextValue
  rw [List.map_map]
  apply List.map_congr_left
  intro kv _
  by_cases h : kv.1 = key <;> simp [h]

theorem updateWavValue_map_fst (d : WavDict) (key : String) :
    (updateWavValue d key).map Prod.fst = d.map Prod.fst := by
  unfold updateWavValue
  rw [List.map_map]
  apply List.map_congr_left
  intro kv _
  by_cases h : kv.1 = key <;> simp [h]

theorem lookupKey_updateTextValue_isSome (d : TextDict) (key k : String) :
    (lookupKey k (updateTextValue d key)).isSome = (lookupKey k d).isSome := by
  by_cases hm : k ∈ d.map Prod.fst
  · have h1 := (lookupKey_isSome_iff k (updateTextValue d key)).mpr
      (by rw [updateTextValue_map_fst]; exact hm)
    have h2 := (lookupKey_isSome_iff k d).mpr hm
    rw [h1, h2]
  · have h1 : ¬(lookupKey k (updateTextValue d key)).isSome = true := by
      rw [lookupKey_isSome_iff, updateTextValue_map_fst]; exact hm
    have h2 : ¬(lookupKey k d).isSome = true := by rw [lookupKey_isSome_iff]; exact hm
    simp only [Bool.not_eq_true] at h1 h2
    rw [h1, h2]

theorem lookupKey_updateWavValue_isSome (d : WavDict) (key k : String) :
    (lookupKey k (updateWavValue d key)).isSome = (lookupKey k d).isSome := by
  by_cases hm : k ∈ d.map Prod.fst
  · have h1 := (lookupKey_isSome_iff k (updateWavValue d key)).mpr
      (by rw [updateWavValue_map_fst]; exact hm)
    have h2 := (lookupKey_isSome_iff k d).mpr hm
    rw [h1, h2]
  · have h1 : ¬(lookupKey k (updateWavValue d key)).isSome = true := by
      rw [lookupKey_isSome_iff, updateWavValue_map_fst]; exact hm
    have h2 : ¬(lookupKey k d).isSome = true := by rw [lookupKey_isSome_iff]; exact hm
    simp only [Bool.not_eq_true] at h1 h2
    rw [h1, h2]

theorem setNoneKeys_nil (d : TextDict) : setNoneKeys [] d = d := by
  simp [setNoneKeys]

theorem nullifyKeys_nil (d : WavDict) : nullifyKeys [] d = d := by
  simp [nullifyKeys]

theorem nullify_wav_idem (w : WavCondition) :
    nullify_wav (nullify_wav w) = nullify_wav w := by
  have hs : sliceLastTo1 (sliceLastTo1 w.wav.dims) = sliceLastTo1 w.wav.dims := by
    rcases hd : w.wav.dims with _ | ⟨b, _ | ⟨c, _ | ⟨t, _ | ⟨x, rest⟩⟩⟩⟩ <;>
      simp [sliceLastTo1]
  simp [nullify_wav, hs]

theorem setNoneKeys_update (ks : List String) (k : String) (d : TextDict) :
    setNoneKeys ks (updateTextValue d k) = setNoneKeys (k :: ks) d := by
  unfold setNoneKeys updateTextValue
  rw [List.map_map]
  apply List.map_congr_left
  intro kv _
  by_cases h1 : kv.1 = k <;> by_cases h2 : kv.1 ∈ ks <;>
    simp [h1, h2, Function.comp]

theorem nullifyKeys_update (ks : List String) (k : String) (d : WavDict) :
    nullifyKeys ks (updateWavValue d k) = nullifyKeys (k :: ks) d := by
  unfold nullifyKeys updateWavValue
  rw [List.map_map]
  apply List.map_congr_left
  intro kv hkv
  by_cases h1 : kv.1 = k <;> by_cases h2 : kv.1 ∈ ks <;>
    simp [h1, h2, Function.comp, nullify_wav_idem]

theorem setNoneKeys_full (d : TextDict) :
    setNoneKeys (d.map Prod.fst) d = setAllTextNone d := by
  unfold setNoneKeys setAllTextNone
  apply List.map_congr_left
  intro kv hkv
  rw [if_pos (List.mem_map_of_mem Prod.fst hkv)]

theorem nullifyKeys_full (d : WavDict) :
    nullifyKeys (d.map Prod.fst) d = nullifyWavDict d := by
  unfold nullifyKeys nullifyWavDict
  apply List.map_congr_left
  intro kv hkv
  rw [if_pos (List.mem_map_of_mem Prod.fst hkv)]

theorem Store.getText_setText_self (s : Store) (a : Nat) (d : TextDict)
    (h : a < s.texts.length) : (s.setText a d).getText a = d :=
  getD_set_self s.texts a [] d h

theorem Store.getText_setText_ne (s : Store) (a b : Nat) (d : TextDict)
    (h : a ≠ b) : (s.setText a d).getText b = s.getText b :=
  getD_set_ne s.texts a b [] d h

theorem Store.getWav_setWav_self (s : Store) (a : Nat) (d : WavDict)
    (h : a < s.wavs.length) : (s.setWav a d).getWav a = d :=
  getD_set_self s.wavs a [] d h

theorem Store.getWav_setWav_ne (s : Store) (a b : Nat) (d : WavDict)
    (h : a ≠ b) : (s.setWav a d).getWav b = s.getWav b :=
  getD_set_ne s.wavs a b [] d h

theorem Store.getWav_setText (s : Store) (a b : Nat) (d : TextDict) :
    (s.setText a d).getWav b = s.getWav b := rfl

theorem Store.getText_setWav (s : Store) (a b : Nat) (d : WavDict) :
    (s.setWav a d).getText b = s.getText b := rfl

theorem Store.setText_setText (s : Store) (a : Nat) (d1 d2 : TextDict) :
    (s.setText a d1).setText a d2 = s.setText a d2 := by
  simp [Store.setText, List.set_set]

theorem Store.setWav_setWav (s : Store) (a : Nat) (d1 d2 : WavDict) :
    (s.setWav a d1).setWav a d2 = s.setWav a d2 := by
  simp [Store.setWav, List.set_set]

theorem Store.setText_getText_self (s : Store) (a : Nat) (h : a < s.texts.length) :
    s.setText a (s.getText a) = s := by
  cases s with
  | mk texts wavs =>
      simp only [Store.setText, Store.getText]
      rw [set_getD_self texts a [] h]

theorem Store.setWav_getWav_self (s : Store) (a : Nat) (h : a < s.wavs.length) :
    s.setWav a (s.getWav a) = s := by
  cases s with
  | mk texts wavs =>
      simp only [Store.setWav, Store.getWav]
      rw [set_getD_self wavs a [] h]

theorem Store.texts_length_setText (s : Store) (a : Nat) (d : TextDict) :
    (s.setText a d).texts.length = s.texts.length := by
  simp [Store.setText]

theorem Store.wavs_length_setWav (s : Store) (a : Nat) (d : WavDict) :
    (s.setWav a d).wavs.length = s.wavs.length := by
  simp [Store.setWav]

theorem dropout_condition_text_ok (s : Store) (r : CARef) (cname : String)
    (h : (lookupKey cname (s.getText r.textAddr)).isSome) :
    dropout_condition s r ctText cname =
      .ok (s.setText r.textAddr (updateTextValue (s.getText r.textAddr) cname)) := by
  unfold dropout_condition
  rw [if_neg (by simp), if_neg (by decide), if_pos h]

theorem dropout_condition_wav_ok (s : Store) (r : CARef) (cname : String)
    (h : (lookupKey cname (s.getWav r.wavAddr)).isSome) :
    dropout_condition s r ctWav cname =
      .ok (s.setWav r.wavAddr (updateWavValue (s.getWav r.wavAddr) cname)) := by
  unfold dropout_condition
  rw [if_neg (by simp), if_pos rfl, if_pos h]

theorem dropKeys_text_spec :
    ∀ (ks : List String) (s : Store) (r : CARef),
      r.textAddr < s.texts.length →
      (∀ k ∈ ks, (lookupKey k (s.getText r.textAddr)).isSome = true) →
      dropKeys r ctText ks s =
        .ok (s.setText r.textAddr (setNoneKeys ks (s.getText r.textAddr))) := by
  intro ks
  induction ks with
  | nil =>
      intro s r ht _
      rw [show dropKeys r ctText [] s = .ok s from rfl, setNoneKeys_nil,
        Store.setText_getText_self s r.textAddr ht]
  | cons k ks ih =>
      intro s r ht hks
      have h0 : (lookupKey k (s.getText r.textAddr)).isSome = true := hks k (by simp)
      have hstep := dropout_condition_text_ok s r k h0
      rw [show dropKeys r ctText (k :: ks) s =
            (match dropout_condition s r ctText k with
             | .ok s' => dropKeys r ctText ks s'
             | .error e => .error e) from rfl, hstep]
      show dropKeys r ctText ks (s.setText r.textAddr
          (updateTextValue (s.getText r.textAddr) k)) =
        .ok (s.setText r.textAddr (setNoneKeys (k :: ks) (s.getText r.textAddr)))
      have ht1 : r.textAddr < (s.setText r.textAddr
          (updateTextValue (s.getText r.textAddr) k)).texts.length := by
        rw [Store.texts_length_setText]; exact ht
      have hget : (s.setText r.textAddr (updateTextValue (s.getText r.textAddr) k)).getText
          r.textAddr = updateTextValue (s.getText r.textAddr) k :=
        Store.getText_setText_self s r.textAddr _ ht
      have hks1 : ∀ k' ∈ ks, (lookupKey k' ((s.setText r.textAddr
          (updateTextValue (s.getText r.textAddr) k)).getText r.textAddr)).isSome = true := by
        intro k' hk'
        rw [hget, lookupKey_updateTextValue_isSome]
        exact hks k' (by simp [hk'])
      rw [ih _ r ht1 hks1, hget, Store.setText_setText, setNoneKeys_update]

theorem dropKeys_wav_spec :
    ∀ (ks : List String) (s : Store) (r : CARef),
      r.wavAddr < s.wavs.length →
      (∀ k ∈ ks, (lookupKey k (s.getWav r.wavAddr)).isSome = true) →
      dropKeys r ctWav ks s =
        .ok (s.setWav r.wavAddr (nullifyKeys ks (s.getWav r.wavAddr))) := by
  intro ks
  induction ks with
  | nil =>
      intro s r ht _
      rw [show dropKeys r ctWav [] s = .ok s from rfl, nullifyKeys_nil,
        Store.setWav_getWav_self s r.wavAddr ht]
  | cons k ks ih =>
      intro s r ht hks
      have h0 : (lookupKey k (s.getWav r.wavAddr)).isSome = true := hks k (by simp)
      have hstep := dropout_condition_wav_ok s r k h0
      rw [show dropKeys r ctWav (k :: ks) s =
            (match dropout_condition s r ctWav k with
             | .ok s' => dropKeys r ctWav ks s'
             | .error e => .error e) from rfl, hstep]
      show dropKeys r ctWav ks (s.setWav r.wavAddr
          (updateWavValue (s.getWav r.wavAddr) k)) =
        .ok (s.setWav r.wavAddr (nullifyKeys (k :: ks) (s.getWav r.wavAddr)))
      have ht1 : r.wavAddr < (s.setWav r.wavAddr
          (updateWavValue (s.getWav r.wavAddr) k)).wavs.length := by
        rw [Store.wavs_length_setWav]; exact ht
      have hget : (s.setWav r.wavAddr (updateWavValue (s.getWav r.wavAddr) k)).getWav
          r.wavAddr = updateWavValue (s.getWav r.wavAddr) k :=
        Store.getWav_setWav_self s r.wavAddr _ ht
      have hks1 : ∀ k' ∈ ks, (lookupKey k' ((s.setWav r.wavAddr
          (updateWavValue (s.getWav r.wavAddr) k)).getWav r.wavAddr)).isSome = true := by
        intro k' hk'
        rw [hget, lookupKey_updateWavValue_isSome]
        exact hks k' (by simp [hk'])
      rw [ih _ r ht1 hks1, hget, Store.setWav_setWav, nullifyKeys_update]

theorem cfgTextPhase_eq :
    ∀ (rs : List CARef) (s : Store),
      (∀ r ∈ rs, r.textAddr < s.texts.length) →
      cfgTextPhase rs s = .ok (storeTextAll rs s) := by
  intro rs
  induction rs with
  | nil => intro s _; rfl
  | cons r rs ih =>
      intro s hval
      have ht : r.textAddr < s.texts.length := hval r (by simp)
      have hkeys : ∀ k ∈ (s.getText r.textAddr).map Prod.fst,
          (lookupKey k (s.getText r.textAddr)).isSome = true := by
        intro k hk
        exact (lookupKey_isSome_iff k _).mpr hk
      have hall : setNoneKeys ((s.getText r.textAddr).map Prod.fst) (s.getText r.textAddr) =
          setAllTextNone (s.getText r.textAddr) := setNoneKeys_full _
      rw [show cfgTextPhase (r :: rs) s =
            (match dropKeys r ctText ((s.getText r.textAddr).map Prod.fst) s with
             | .ok s' => cfgTextPhase rs s'
             | .error e => .error e) from rfl,
        dropKeys_text_spec _ s r ht hkeys, hall]
      exact ih _ (fun r' hr' => by
        rw [Store.texts_length_setText]; exact hval r' (by simp [hr']))

theorem cfgWavPhase_eq :
    ∀ (rs : List CARef) (s : Store),
      (∀ r ∈ rs, r.wavAddr < s.wavs.length) →
      cfgWavPhase rs s = .ok (storeWavAll rs s) := by
  intro rs
  induction rs with
  | nil => intro s _; rfl
  | cons r rs ih =>
      intro s hval
      have ht : r.wavAddr < s.wavs.length := hval r (by simp)
      have hkeys : ∀ k ∈ (s.getWav r.wavAddr).map Prod.fst,
          (lookupKey k (s.getWav r.wavAddr)).isSome = true := by
        intro k hk
        exact (lookupKey_isSome_iff k _).mpr hk
      have hall : nullifyKeys ((s.getWav r.wavAddr).map Prod.fst) (s.getWav r.wavAddr) =
          nullifyWavDict (s.getWav r.wavAddr) := nullifyKeys_full _
      rw [show cfgWavPhase (r :: rs) s =
            (match dropKeys r ctWav ((s.getWav r.wavAddr).map Prod.fst) s with
             | .ok s' => cfgWavPhase rs s'
             | .error e => .error e) from rfl,
        dropKeys_wav_spec _ s r ht hkeys, hall]
      exact ih _ (fun r' hr' => by
        rw [Store.wavs_length_setWav]; exact hval r' (by simp [hr']))

theorem storeTextAll_wavs :
    ∀ (rs : List CARef) (s : Store), (storeTextAll rs s).wavs = s.wavs := by
  intro rs
  induction rs with
  | nil => intro s; rfl
  | cons r rs ih =>
      intro s
      rw [show storeTextAll (r :: rs) s =
        storeTextAll rs (s.setText r.textAddr (setAllTextNone (s.getText r.textAddr))) from rfl]
      rw [ih]
      rfl

theorem storeWavAll_texts :
    ∀ (rs : List CARef) (s : Store), (storeWavAll rs s).texts = s.texts := by
  intro rs
  induction rs with
  | nil => intro s; rfl
  | cons r rs ih =>
      intro s
      rw [show storeWavAll (r :: rs) s =
        storeWavAll rs (s.setWav r.wavAddr (nullifyWavDict (s.getWav r.wavAddr))) from rfl]
      rw [ih]
      rfl

theorem storeTextAll_texts_length :
    ∀ (rs : List CARef) (s : Store), (storeTextAll rs s).texts.length = s.texts.length := by
  intro rs
  induction rs with
  | nil => intro s; rfl
  | cons r rs ih =>
      intro s
      rw [show storeTextAll (r :: rs) s =
        storeTextAll rs (s.setText r.textAddr (setAllTextNone (s.getText r.textAddr))) from rfl,
        ih, Store.texts_length_setText]

theorem storeWavAll_wavs_length :
    ∀ (rs : List CARef) (s : Store), (storeWavAll rs s).wavs.length = s.wavs.length := by
  intro rs
  induction rs with
  | nil => intro s; rfl
  | cons r rs ih =>
      intro s
      rw [show storeWavAll (r :: rs) s =
        storeWavAll rs (s.setWav r.wavAddr (nullifyWavDict (s.getWav r.wavAddr))) from rfl,
        ih, Store.wavs_length_setWav]

theorem storeTextAll_getText_notmem :
    ∀ (rs : List CARef) (s : Store) (a : Nat),
      (∀ r ∈ rs, r.textAddr ≠ a) →
      (storeTextAll rs s).getText a = s.getText a := by
  intro rs
  induction rs with
  | nil => intro s a _; rfl
  | cons r rs ih =>
      intro s a hne
      rw [show storeTextAll (r :: rs) s =
        storeTextAll rs (s.setText r.textAddr (setAllTextNone (s.getText r.textAddr))) from rfl,
        ih _ a (fun r' hr' => hne r' (by simp [hr'])),
        Store.getText_setText_ne s _ a _ (hne r (by simp))]

theorem storeWavAll_getWav_notmem :
    ∀ (rs : List CARef) (s : Store) (a : Nat),
      (∀ r ∈ rs, r.wavAddr ≠ a) →
      (storeWavAll rs s).getWav a = s.getWav a := by
  intro rs
  induction rs with
  | nil => intro s a _; rfl
  | cons r rs ih =>
      intro s a hne
      rw [show storeWavAll (r :: rs) s =
        storeWavAll rs (s.setWav r.wavAddr (nullifyWavDict (s.getWav r.wavAddr))) from rfl,
        ih _ a (fun r' hr' => hne r' (by simp [hr'])),
        Store.getWav_setWav_ne s _ a _ (hne r (by simp))]

theorem storeTextAll_getText_mem :
    ∀ (rs : List CARef) (s : Store),
      rs.Pairwise (fun r1 r2 => r1.textAddr ≠ r2.textAddr) →
      (∀ r ∈ rs, r.textAddr < s.texts.length) →
      ∀ r ∈ rs, (storeTextAll rs s).getText r.textAddr =
        setAllTextNone (s.getText r.textAddr) := by
  intro rs
  induction rs with
  | nil => intro s _ _ r hr; simp at hr
  | cons r0 rs ih =>
      intro s hpw hval r hr
      have hpw1 := (List.pairwise_cons.mp hpw).1
      have hpw2 := (List.pairwise_cons.mp hpw).2
      rw [show storeTextAll (r0 :: rs) s =
        storeTextAll rs (s.setText r0.textAddr (setAllTextNone (s.getText r0.textAddr))) from rfl]
      rcases List.mem_cons.mp hr with heq | hmem
      · subst heq
        rw [storeTextAll_getText_notmem rs _ r.textAddr
            (fun r' hr' => (hpw1 r' hr').symm),
          Store.getText_setText_self s r.textAddr _ (hval r (by simp))]
      · have hne : r0.textAddr ≠ r.textAddr := hpw1 r hmem
        rw [ih _ hpw2 (fun r' hr' => by
            rw [Store.texts_length_setText]; exact hval r' (by simp [hr'])) r hmem,
          Store.getText_setText_ne s _ _ _ hne]

theorem storeWavAll_getWav_mem :
    ∀ (rs : List CARef) (s : Store),
      rs.Pairwise (fun r1 r2 => r1.wavAddr ≠ r2.wavAddr) →
      (∀ r ∈ rs, r.wavAddr < s.wavs.length) →
      ∀ r ∈ rs, (storeWavAll rs s).getWav r.wavAddr =
        nullifyWavDict (s.getWav r.wavAddr) := by
  intro rs
  induction rs with
  | nil => intro s _ _ r hr; simp at hr
  | cons r0 rs ih =>
      intro s hpw hval r hr
      have hpw1 := (List.pairwise_cons.mp hpw).1
      have hpw2 := (List.pairwise_cons.mp hpw).2
      rw [show storeWavAll (r0 :: rs) s =
        storeWavAll rs (s.setWav r0.wavAddr (nullifyWavDict (s.getWav r0.wavAddr))) from rfl]
      rcases List.mem_cons.mp hr with heq | hmem
      · subst heq
        rw [storeWavAll_getWav_notmem rs _ r.wavAddr
            (fun r' hr' => (hpw1 r' hr').symm),
          Store.getWav_setWav_self s r.wavAddr _ (hval r (by simp))]
      · have hne : r0.wavAddr ≠ r.wavAddr := hpw1 r hmem
        rw [ih _ hpw2 (fun r' hr' => by
            rw [Store.wavs_length_setWav]; exact hval r' (by simp [hr'])) r hmem,
          Store.getWav_setWav_ne s _ _ _ hne]

theorem copyAll_refs_length :
    ∀ (rs : List CARef) (s : Store), (copyAll s rs).2.length = rs.length := by
  intro rs
  induction rs with
  | nil => intro s; rfl
  | cons r rs ih => intro s; simp [copyAll, ih]

theorem copyAll_store_lengths :
    ∀ (rs : List CARef) (s : Store),
      (copyAll s rs).1.texts.length = s.texts.length + rs.length ∧
      (copyAll s rs).1.wavs.length = s.wavs.length + rs.length := by
  intro rs
  induction rs with
  | nil => intro s; constructor <;> simp [copyAll]
  | cons r rs ih =>
      intro s
      have h := ih (caCopy s r).1
      constructor
      · rw [show (copyAll s (r :: rs)).1 = (copyAll (caCopy s r).1 rs).1 from rfl, h.1]
        simp [caCopy]; omega
      · rw [show (copyAll s (r :: rs)).1 = (copyAll (caCopy s r).1 rs).1 from rfl, h.2]
        simp [caCopy]; omega

theorem copyAll_getText_below :
    ∀ (rs : List CARef) (s : Store) (a : Nat), a < s.texts.length →
      (copyAll s rs).1.getText a = s.getText a := by
  intro rs
  induction rs with
  | nil => intro s a _; rfl
  | cons r rs ih =>
      intro s a ha
      rw [show (copyAll s (r :: rs)).1 = (copyAll (caCopy s r).1 rs).1 from rfl,
        ih _ a (by simp [caCopy]; omega)]
      exact getD_append_left s.texts _ a [] ha

theorem copyAll_getWav_below :
    ∀ (rs : List CARef) (s : Store) (a : Nat), a < s.wavs.length →
      (copyAll s rs).1.getWav a = s.getWav a := by
  intro rs
  induction rs with
  | nil => intro s a _; rfl
  | cons r rs ih =>
      intro s a ha
      rw [show (copyAll s (r :: rs)).1 = (copyAll (caCopy s r).1 rs).1 from rfl,
        ih _ a (by simp [caCopy]; omega)]
      exact getD_append_left s.wavs _ a [] ha

theorem copyAll_refs_ge :
    ∀ (rs : List CARef) (s : Store), ∀ r' ∈ (copyAll s rs).2,
      s.texts.length ≤ r'.textAddr ∧ s.wavs.length ≤ r'.wavAddr := by
  intro rs
  induction rs with
  | nil => intro s r' hr'; simp [copyAll] at hr'
  | cons r rs ih =>
      intro s r' hr'
      rw [show (copyAll s (r :: rs)).2 = (caCopy s r).2 :: (copyAll (caCopy s r).1 rs).2
        from rfl] at hr'
      rcases List.mem_cons.mp hr' with heq | hmem
      · subst heq; constructor <;> simp [caCopy]
      · have h := ih (caCopy s r).1 r' hmem
        constructor
        · have : (caCopy s r).1.texts.length = s.texts.length + 1 := by simp [caCopy]
          omega
        · have : (caCopy s r).1.wavs.length = s.wavs.length + 1 := by simp [caCopy]
          omega

theorem copyAll_refs_lt :
    ∀ (rs : List CARef) (s : Store), ∀ r' ∈ (copyAll s rs).2,
      r'.textAddr < (copyAll s rs).1.texts.length ∧
      r'.wavAddr < (copyAll s rs).1.wavs.length := by
  intro rs
  induction rs with
  | nil => intro s r' hr'; simp [copyAll] at hr'
  | cons r rs ih =>
      intro s r' hr'
      rw [show (copyAll s (r :: rs)).2 = (caCopy s r).2 :: (copyAll (caCopy s r).1 rs).2
        from rfl] at hr'
      have hlen := copyAll_store_lengths rs (caCopy s r).1
      have hlen1 : (caCopy s r).1.texts.length = s.texts.length + 1 := by simp [caCopy]
      have hlen2 : (caCopy s r).1.wavs.length = s.wavs.length + 1 := by simp [caCopy]
      rw [show (copyAll s (r :: rs)).1 = (copyAll (caCopy s r).1 rs).1 from rfl]
      rcases List.mem_cons.mp hr' with heq | hmem
      · subst heq
        constructor
        · rw [hlen.1]; simp [caCopy]; omega
        · rw [hlen.2]; simp [caCopy]; omega
      · exact ih (caCopy s r).1 r' hmem

theorem copyAll_refs_pairwise :
    ∀ (rs : List CARef) (s : Store),
      (copyAll s rs).2.Pairwise (fun r1 r2 => r1.textAddr ≠ r2.textAddr) ∧
      (copyAll s rs).2.Pairwise (fun r1 r2 => r1.wavAddr ≠ r2.wavAddr) := by
  intro rs
  induction rs with
  | nil => intro s; constructor <;> simp [copyAll]
  | cons r rs ih =>
      intro s
      rw [show (copyAll s (r :: rs)).2 = (caCopy s r).2 :: (copyAll (caCopy s r).1 rs).2
        from rfl]
      have hge := copyAll_refs_ge rs (caCopy s r).1
      have hlen1 : (caCopy s r).1.texts.length = s.texts.length + 1 := by simp [caCopy]
      have hlen2 : (caCopy s r).1.wavs.length = s.wavs.length + 1 := by simp [caCopy]
      constructor
      · rw [List.pairwise_cons]
        refine ⟨fun r' hr' => ?_, (ih (caCopy s r).1).1⟩
        have h := (hge r' hr').1
        have : (caCopy s r).2.textAddr = s.texts.length := by simp [caCopy]
        omega
      · rw [List.pairwise_cons]
        refine ⟨fun r' hr' => ?_, (ih (caCopy s r).1).2⟩
        have h := (hge r' hr').2
        have : (caCopy s r).2.wavAddr = s.wavs.length := by simp [caCopy]
        omega

theorem copyAll_getD_ref :
    ∀ (rs : List CARef) (s : Store) (i : Nat), i < rs.length →
      (copyAll s rs).2.getD i ⟨0, 0⟩ = ⟨s.texts.length + i, s.wavs.length + i⟩ := by
  intro rs
  induction rs with
  | nil => intro s i h; simp at h
  | cons r rs ih =>
      intro s i h
      rw [show (copyAll s (r :: rs)).2 = (caCopy s r).2 :: (copyAll (caCopy s r).1 rs).2
        from rfl]
      cases i with
      | zero => simp [caCopy, List.getD]
      | succ i =>
          rw [List.getD_cons_succ, ih _ i (by simpa using h)]
          have hlen1 : (caCopy s r).1.texts.length = s.texts.length + 1 := by simp [caCopy]
          have hlen2 : (caCopy s r).1.wavs.length = s.wavs.length + 1 := by simp [caCopy]
          rw [hlen1, hlen2]
          congr 1 <;> omega

theorem copyAll_content :
    ∀ (rs : List CARef) (s : Store) (i : Nat), i < rs.length →
      (∀ r ∈ rs, r.textAddr < s.texts.length ∧ r.wavAddr < s.wavs.length) →
      (copyAll s rs).1.getText (s.texts.length + i) =
        s.getText ((rs.getD i ⟨0, 0⟩).textAddr) ∧
      (copyAll s rs).1.getWav (s.wavs.length + i) =
        s.getWav ((rs.getD i ⟨0, 0⟩).wavAddr) := by
  intro rs
  induction rs with
  | nil => intro s i h _; simp at h
  | cons r rs ih =>
      intro s i h hval
      have hlen1 : (caCopy s r).1.texts.length = s.texts.length + 1 := by simp [caCopy]
      have hlen2 : (caCopy s r).1.wavs.length = s.wavs.length + 1 := by simp [caCopy]
      rw [show (copyAll s (r :: rs)).1 = (copyAll (caCopy s r).1 rs).1 from rfl]
      cases i with
      | zero =>
          have hvr := hval r (by simp)
          constructor
          · rw [copyAll_getText_below rs (caCopy s r).1 _ (by omega)]
            rw [show (caCopy s r).1.getText (s.texts.length + 0) =
              (s.texts ++ [s.getText r.textAddr]).getD (s.texts.length + 0) [] from rfl,
              getD_append_add]
            simp [List.getD]
          · rw [copyAll_getWav_below rs (caCopy s r).1 _ (by omega)]
            rw [show (caCopy s r).1.getWav (s.wavs.length + 0) =
              (s.wavs ++ [s.getWav r.wavAddr]).getD (s.wavs.length + 0) [] from rfl,
              getD_append_add]
            simp [List.getD]
      | succ i =>
          have hval1 : ∀ r' ∈ rs, r'.textAddr < (caCopy s r).1.texts.length ∧
              r'.wavAddr < (caCopy s r).1.wavs.length := by
            intro r' hr'
            have := hval r' (by simp [hr'])
            omega
          have harith1 : s.texts.length + (i + 1) = (caCopy s r).1.texts.length + i := by
            omega
          have harith2 : s.wavs.length + (i + 1) = (caCopy s r).1.wavs.length + i := by
            omega
          have hih := ih (caCopy s r).1 i (by simpa using h) hval1
          constructor
          · rw [harith1, hih.1, List.getD_cons_succ]
            have hm : rs.getD i ⟨0, 0⟩ ∈ rs := getD_mem rs i ⟨0, 0⟩ (by simpa using h)
            have := (hval (rs.getD i ⟨0, 0⟩) (List.mem_cons_of_mem r hm)).1
            rw [show (caCopy s r).1.getText ((rs.getD i ⟨0, 0⟩).textAddr) =
              (s.texts ++ [s.getText r.textAddr]).getD ((rs.getD i ⟨0, 0⟩).textAddr) []
              from rfl, getD_append_left _ _ _ _ this]
            rfl
          · rw [harith2, hih.2, List.getD_cons_succ]
            have hm : rs.getD i ⟨0, 0⟩ ∈ rs := getD_mem rs i ⟨0, 0⟩ (by simpa using h)
            have := (hval (rs.getD i ⟨0, 0⟩) (List.mem_cons_of_mem r hm)).2
            rw [show (caCopy s r).1.getWav ((rs.getD i ⟨0, 0⟩).wavAddr) =
              (s.wavs ++ [s.getWav r.wavAddr]).getD ((rs.getD i ⟨0, 0⟩).wavAddr) []
              from rfl, getD_append_left _ _ _ _ this]
            rfl

theorem cfg_forward_drop (p : ℚ) (g : Nat → ℚ) (k : Nat) (s : Store) (rs : List CARef)
    (hd : g k < p) :
    ClassifierFreeGuidanceDropout.forward p g true k s rs =
      .ok (storeWavAll (copyAll s rs).2 (storeTextAll (copyAll s rs).2 (copyAll s rs).1),
        (copyAll s rs).2, k + 1) := by
  have h1 : cfgTextPhase (copyAll s rs).2 (copyAll s rs).1 =
      .ok (storeTextAll (copyAll s rs).2 (copyAll s rs).1) :=
    cfgTextPhase_eq _ _ (fun r' hr' => (copyAll_refs_lt rs s r' hr').1)
  have h2 : cfgWavPhase (copyAll s rs).2 (storeTextAll (copyAll s rs).2 (copyAll s rs).1) =
      .ok (storeWavAll (copyAll s rs).2 (storeTextAll (copyAll s rs).2 (copyAll s rs).1)) :=
    cfgWavPhase_eq _ _ (fun r' hr' => by
      rw [show (storeTextAll (copyAll s rs).2 (copyAll s rs).1).wavs =
        (copyAll s rs).1.wavs from storeTextAll_wavs _ _]
      exact (copyAll_refs_lt rs s r' hr').2)
  unfold ClassifierFreeGuidanceDropout.forward
  rw [if_neg (by decide), if_pos hd]
  simp only [h1, h2]

/-- C2: a single call of `ClassifierFreeGuidanceDropout` in training mode
consumes exactly one draw of the generator (the counter goes from `k` to
`k + 1`, independently of batch and attribute counts), and either returns
the batch unchanged (same store, same references) or returns a batch in
which every text attribute of every example is `None` and every wav
attribute of every example is nullified — never a partial subset. -/
theorem C2_cfg_single_draw_all_or_nothing (p : ℚ) (g : Nat → ℚ) (k : Nat)
    (s : Store) (rs : List CARef)
    (hval : ∀ r ∈ rs, r.textAddr < s.texts.length ∧ r.wavAddr < s.wavs.length) :
    ∃ s' rs', ClassifierFreeGuidanceDropout.forward p g true k s rs = .ok (s', rs', k + 1) ∧
      ((s' = s ∧ rs' = rs) ∨
        (rs'.length = rs.length ∧ ∀ i, i < rs.length →
          s'.getText ((rs'.getD i ⟨0, 0⟩).textAddr) =
            setAllTextNone (s.getText ((rs.getD i ⟨0, 0⟩).textAddr)) ∧
          s'.getWav ((rs'.getD i ⟨0, 0⟩).wavAddr) =
            nullifyWavDict (s.getWav ((rs.getD i ⟨0, 0⟩).wavAddr)))) := by
  by_cases hd : g k < p
  · refine ⟨storeWavAll (copyAll s rs).2 (storeTextAll (copyAll s rs).2 (copyAll s rs).1),
      (copyAll s rs).2, cfg_forward_drop p g k s rs hd,
      Or.inr ⟨copyAll_refs_length rs s, ?_⟩⟩
    intro i hi
    have hi2 : i < (copyAll s rs).2.length := by rw [copyAll_refs_length]; exact hi
    have href := copyAll_getD_ref rs s i hi
    have hmem : (copyAll s rs).2.getD i ⟨0, 0⟩ ∈ (copyAll s rs).2 :=
      getD_mem _ i _ hi2
    rw [href] at hmem
    rw [href]
    constructor
    · have e1 : (storeWavAll (copyAll s rs).2
          (storeTextAll (copyAll s rs).2 (copyAll s rs).1)).getText (s.texts.length + i) =
          (storeTextAll (copyAll s rs).2 (copyAll s rs).1).getText (s.texts.length + i) := by
        unfold Store.getText
        rw [storeWavAll_texts]
      have e2 := storeTextAll_getText_mem (copyAll s rs).2 (copyAll s rs).1
        (copyAll_refs_pairwise rs s).1 (fun r' hr' => (copyAll_refs_lt rs s r' hr').1)
        ⟨s.texts.length + i, s.wavs.length + i⟩ hmem
      rw [e1, e2, (copyAll_content rs s i hi hval).1]
    · have e2 := storeWavAll_getWav_mem (copyAll s rs).2
        (storeTextAll (copyAll s rs).2 (copyAll s rs).1)
        (copyAll_refs_pairwise rs s).2 (fun r' hr' => by
          rw [show (storeTextAll (copyAll s rs).2 (copyAll s rs).1).wavs =
            (copyAll s rs).1.wavs from storeTextAll_wavs _ _]
          exact (copyAll_refs_lt rs s r' hr').2)
        ⟨s.texts.length + i, s.wavs.length + i⟩ hmem
      have e3 : (storeTextAll (copyAll s rs).2 (copyAll s rs).1).getWav (s.wavs.length + i) =
          (copyAll s rs).1.getWav (s.wavs.length + i) := by
        unfold Store.getWav
        rw [storeTextAll_wavs]
      rw [e2, e3, (copyAll_content rs s i hi hval).2]
  · refine ⟨s, rs, ?_, Or.inl ⟨rfl, rfl⟩⟩
    unfold ClassifierFreeGuidanceDropout.forward
    rw [if_neg (by decide), if_neg hd]

/-- C2 witness: the theorem applied to a concrete one-sample batch with
`p = 1` (the dropping branch) and draw counter 0. -/
theorem C2_cfg_witness :
    ∃ s' rs', ClassifierFreeGuidanceDropout.forward 1 gZero true 0 storeEx refsEx =
        .ok (s', rs', 0 + 1) ∧
      ((s' = storeEx ∧ rs' = refsEx) ∨
        (rs'.length = refsEx.length ∧ ∀ i, i < refsEx.length →
          s'.getText ((rs'.getD i ⟨0, 0⟩).textAddr) =
            setAllTextNone (storeEx.getText ((refsEx.getD i ⟨0, 0⟩).textAddr)) ∧
          s'.getWav ((rs'.getD i ⟨0, 0⟩).wavAddr) =
            nullifyWavDict (storeEx.getWav ((refsEx.getD i ⟨0, 0⟩).wavAddr)))) :=
  C2_cfg_single_draw_all_or_nothing 1 gZero 0 storeEx refsEx (by decide)

theorem dropout_condition_preserve (s : Store) (r : CARef) (ct cname : String) (s' : Store)
    (h : dropout_condition s r ct cname = .ok s') :
    (∀ a, a ≠ r.textAddr → s'.getText a = s.getText a) ∧
    (∀ a, a ≠ r.wavAddr → s'.getWav a = s.getWav a) ∧
    s'.texts.length = s.texts.length ∧ s'.wavs.length = s.wavs.length := by
  unfold dropout_condition at h
  split at h
  · simp at h
  · split at h
    · split at h
      · cases h
        exact ⟨fun a _ => rfl, fun a ha => Store.getWav_setWav_ne _ _ _ _ (Ne.symm ha), rfl,
          by simp [Store.setWav]⟩
      · simp at h
    · split at h
      · cases h
        exact ⟨fun a ha => Store.getText_setText_ne _ _ _ _ (Ne.symm ha), fun a _ => rfl,
          by simp [Store.setText], rfl⟩
      · simp at h

theorem dropKeys_preserve :
    ∀ (ks : List String) (ct : String) (r : CARef) (s s' : Store),
      dropKeys r ct ks s = .ok s' →
      (∀ a, a ≠ r.textAddr → s'.getText a = s.getText a) ∧
      (∀ a, a ≠ r.wavAddr → s'.getWav a = s.getWav a) ∧
      s'.texts.length = s.texts.length ∧ s'.wavs.length = s.wavs.length := by
  intro ks
  induction ks with
  | nil =>
      intro ct r s s' h
      rw [show dropKeys r ct [] s = .ok s from rfl] at h
      cases h
      exact ⟨fun _ _ => rfl, fun _ _ => rfl, rfl, rfl⟩
  | cons k ks ih =>
      intro ct r s s' h
      rw [show dropKeys r ct (k :: ks) s =
        (match dropout_condition s r ct k with
         | .ok s1 => dropKeys r ct ks s1
         | .error e => .error e) from rfl] at h
      cases hdc : dropout_condition s r ct k with
      | error e =>
          simp only [hdc] at h
          exact Except.noConfusion h
      | ok s1 =>
          simp only [hdc] at h
          have h1 := dropout_condition_preserve s r ct k s1 hdc
          have h2 := ih ct r s1 s' h
          exact ⟨fun a ha => (h2.1 a ha).trans (h1.1 a ha),
            fun a ha => (h2.2.1 a ha).trans (h1.2.1 a ha),
            h2.2.2.1.trans h1.2.2.1, h2.2.2.2.trans h1.2.2.2⟩

theorem cfgTextPhase_preserve :
    ∀ (rs : List CARef) (s s' : Store),
      cfgTextPhase rs s = .ok s' →
      (∀ a, (∀ r ∈ rs, r.textAddr ≠ a) → s'.getText a = s.getText a) ∧
      (∀ a, (∀ r ∈ rs, r.wavAddr ≠ a) → s'.getWav a = s.getWav a) ∧
      s'.texts.length = s.texts.length ∧ s'.wavs.length = s.wavs.length := by
  intro rs
  induction rs with
  | nil =>
      intro s s' h
      rw [show cfgTextPhase [] s = .ok s from rfl] at h
      cases h
      exact ⟨fun _ _ => rfl, fun _ _ => rfl, rfl, rfl⟩
  | cons r rs ih =>
      intro s s' h
      rw [show cfgTextPhase (r :: rs) s =
        (match dropKeys r ctText ((s.getText r.textAddr).map Prod.fst) s with
         | .ok s1 => cfgTextPhase rs s1
         | .error e => .error e) from rfl] at h
      cases hdk : dropKeys r ctText ((s.getText r.textAddr).map Prod.fst) s with
      | error e =>
          simp only [hdk] at h
          exact Except.noConfusion h
      | ok s1 =>
          simp only [hdk] at h
          have h1 := dropKeys_preserve _ ctText r s s1 hdk
          have h2 := ih s1 s' h
          refine ⟨fun a ha => ?_, fun a ha => ?_,
            h2.2.2.1.trans h1.2.2.1, h2.2.2.2.trans h1.2.2.2⟩
          · exact (h2.1 a (fun r' hr' => ha r' (by simp [hr']))).trans
              (h1.1 a (Ne.symm (ha r (by simp))))
          · exact (h2.2.1 a (fun r' hr' => ha r' (by simp [hr']))).trans
              (h1.2.1 a (Ne.symm (ha r (by simp))))

theorem cfgWavPhase_preserve :
    ∀ (rs : List CARef) (s s' : Store),
      cfgWavPhase rs s = .ok s' →
      (∀ a, (∀ r ∈ rs, r.textAddr ≠ a) → s'.getText a = s.getText a) ∧
      (∀ a, (∀ r ∈ rs, r.wavAddr ≠ a) → s'.getWav a = s.getWav a) ∧
      s'.texts.length = s.texts.length ∧ s'.wavs.length = s.wavs.length := by
  intro rs
  induction rs with
  | nil =>
      intro s s' h
      rw [show cfgWavPhase [] s = .ok s from rfl] at h
      cases h
      exact ⟨fun _ _ => rfl, fun _ _ => rfl, rfl, rfl⟩
  | cons r rs ih =>
      intro s s' h
      rw [show cfgWavPhase (r :: rs) s =
        (match dropKeys r ctWav ((s.getWav r.wavAddr).map Prod.fst) s with
         | .ok s1 => cfgWavPhase rs s1
         | .error e => .error e) from rfl] at h
      cases hdk : dropKeys r ctWav ((s.getWav r.wavAddr).map Prod.fst) s with
      | error e =>
          simp only [hdk] at h
          exact Except.noConfusion h
      | ok s1 =>
          simp only [hdk] at h
          have h1 := dropKeys_preserve _ ctWav r s s1 hdk
          have h2 := ih s1 s' h
          refine ⟨fun a ha => ?_, fun a ha => ?_,
            h2.2.2.1.trans h1.2.2.1, h2.2.2.2.trans h1.2.2.2⟩
          · exact (h2.1 a (fun r' hr' => ha r' (by simp [hr']))).trans
              (h1.1 a (Ne.symm (ha r (by simp))))
          · exact (h2.2.1 a (fun r' hr' => ha r' (by simp [hr']))).trans
              (h1.2.1 a (Ne.symm (ha r (by simp))))

theorem adKeys_preserve :
    ∀ (ks : List String) (d : List (String × ℚ)) (g : Nat → ℚ) (r : CARef) (ct : String)
      (s : Store) (k : Nat) (s' : Store) (k' : Nat),
      adKeys d g r ct ks s k = .ok (s', k') →
      (∀ a, a ≠ r.textAddr → s'.getText a = s.getText a) ∧
      (∀ a, a ≠ r.wavAddr → s'.getWav a = s.getWav a) ∧
      s'.texts.length = s.texts.length ∧ s'.wavs.length = s.wavs.length := by
  intro ks
  induction ks with
  | nil =>
      intro d g r ct s k s' k' h
      rw [show adKeys d g r ct [] s k = .ok (s, k) from rfl] at h
      simp at h
      obtain ⟨h1, _⟩ := h
      subst h1
      exact ⟨fun _ _ => rfl, fun _ _ => rfl, rfl, rfl⟩
  | cons key ks ih =>
      intro d g r ct s k s' k' h
      rw [show adKeys d g r ct (key :: ks) s k =
        (match lookupKey key d with
         | none => adKeys d g r ct ks s k
         | some p =>
             if g k < p then
               match dropout_condition s r ct key with
               | .ok s1 => adKeys d g r ct ks s1 (k + 1)
               | .error e => .error e
             else adKeys d g r ct ks s (k + 1)) from rfl] at h
      cases hlk : lookupKey key d with
      | none =>
          simp only [hlk] at h
          exact ih d g r ct s k s' k' h
      | some p =>
          simp only [hlk] at h
          by_cases hg : g k < p
          · rw [if_pos hg] at h
            cases hdc : dropout_condition s r ct key with
            | error e =>
                simp only [hdc] at h
                exact Except.noConfusion h
            | ok s1 =>
                simp only [hdc] at h
                have h1 := dropout_condition_preserve s r ct key s1 hdc
                have h2 := ih d g r ct s1 (k + 1) s' k' h
                exact ⟨fun a ha => (h2.1 a ha).trans (h1.1 a ha),
                  fun a ha => (h2.2.1 a ha).trans (h1.2.1 a ha),
                  h2.2.2.1.trans h1.2.2.1, h2.2.2.2.trans h1.2.2.2⟩
          · rw [if_neg hg] at h
            exact ih d g r ct s (k + 1) s' k' h

theorem adSample_preserve (d : List (String × ℚ)) (g : Nat → ℚ) (r : CARef)
    (s : Store) (k : Nat) (s' : Store) (k' : Nat)
    (h : adSample d g r s k = .ok (s', k')) :
    (∀ a, a ≠ r.textAddr → s'.getText a = s.getText a) ∧
    (∀ a, a ≠ r.wavAddr → s'.getWav a = s.getWav a) ∧
    s'.texts.length = s.texts.length ∧ s'.wavs.length = s.wavs.length := by
  unfold adSample at h
  cases h1 : adKeys d g r ctText ((s.getText r.textAddr).map Prod.fst) s k with
  | error e => rw [h1] at h; simp at h
  | ok sk =>
      rw [h1] at h
      have p1 := adKeys_preserve _ d g r ctText s k sk.1 sk.2 (by rw [h1])
      have p2 := adKeys_preserve _ d g r ctWav sk.1 sk.2 s' k' h
      exact ⟨fun a ha => (p2.1 a ha).trans (p1.1 a ha),
        fun a ha => (p2.2.1 a ha).trans (p1.2.1 a ha),
        p2.2.2.1.trans p1.2.2.1, p2.2.2.2.trans p1.2.2.2⟩

theorem adBatch_preserve :
    ∀ (rs : List CARef) (d : List (String × ℚ)) (g : Nat → ℚ)
      (s : Store) (k : Nat) (s' : Store) (k' : Nat),
      adBatch d g rs s k = .ok (s', k') →
      (∀ a, (∀ r ∈ rs, r.textAddr ≠ a) → s'.getText a = s.getText a) ∧
      (∀ a, (∀ r ∈ rs, r.wavAddr ≠ a) → s'.getWav a = s.getWav a) ∧
      s'.texts.length = s.texts.length ∧ s'.wavs.length = s.wavs.length := by
  intro rs
  induction rs with
  | nil =>
      intro d g s k s' k' h
      rw [show adBatch d g [] s k = .ok (s, k) from rfl] at h
      simp at h
      obtain ⟨h1, _⟩ := h
      subst h1
      exact ⟨fun _ _ => rfl, fun _ _ => rfl, rfl, rfl⟩
  | cons r rs ih =>
      intro d g s k s' k' h
      rw [show adBatch d g (r :: rs) s k =
        (match adSample d g r s k with
         | .ok sk => adBatch d g rs sk.1 sk.2
         | .error e => .error e) from rfl] at h
      cases hs : adSample d g r s k with
      | error e =>
          simp only [hs] at h
          exact Except.noConfusion h
      | ok sk =>
          simp only [hs] at h
          have h1 := adSample_preserve d g r s k sk.1 sk.2 (by rw [hs])
          have h2 := ih d g sk.1 sk.2 s' k' h
          refine ⟨fun a ha => ?_, fun a ha => ?_,
            h2.2.2.1.trans h1.2.2.1, h2.2.2.2.trans h1.2.2.2⟩
          · exact (h2.1 a (fun r' hr' => ha r' (by simp [hr']))).trans
              (h1.1 a (Ne.symm (ha r (by simp))))
          · exact (h2.2.1 a (fun r' hr' => ha r' (by simp [hr']))).trans
              (h1.2.1 a (Ne.symm (ha r (by simp))))

/-- C4: neither dropout policy mutates the caller's `ConditionAttributes`
objects: whenever `AttributeDropout.forward` or
`ClassifierFreeGuidanceDropout.forward` returns, the text dict and wav dict
of every original sample read the same as before the call (nullification
happens only on fresh copies). -/
theorem C4_dropout_batch_not_mutated :
    (∀ (d : List (String × ℚ)) (act tr : Bool) (g : Nat → ℚ) (k : Nat) (s : Store)
        (rs : List CARef) (s' : Store) (rs' : List CARef) (k' : Nat),
      AttributeDropout.forward d act tr g k s rs = .ok (s', rs', k') →
      ∀ r ∈ rs, r.textAddr < s.texts.length → r.wavAddr < s.wavs.length →
        s'.getText r.textAddr = s.getText r.textAddr ∧
        s'.getWav r.wavAddr = s.getWav r.wavAddr) ∧
    (∀ (p : ℚ) (g : Nat → ℚ) (tr : Bool) (k : Nat) (s : Store) (rs : List CARef)
        (s' : Store) (rs' : List CARef) (k' : Nat),
      ClassifierFreeGuidanceDropout.forward p g tr k s rs = .ok (s', rs', k') →
      ∀ r ∈ rs, r.textAddr < s.texts.length → r.wavAddr < s.wavs.length →
        s'.getText r.textAddr = s.getText r.textAddr ∧
        s'.getWav r.wavAddr = s.getWav r.wavAddr) := by
  constructor
  · intro d act tr g k s rs s' rs' k' h r hr ht hw
    unfold AttributeDropout.forward at h
    split at h
    · simp at h
      obtain ⟨h1, _, _⟩ := h
      subst h1
      exact ⟨rfl, rfl⟩
    · cases hab : adBatch d g (copyAll s rs).2 (copyAll s rs).1 k with
      | error e => rw [hab] at h; simp at h
      | ok sk =>
          rw [hab] at h
          simp at h
          obtain ⟨h1, _, _⟩ := h
          subst h1
          have hpres := adBatch_preserve (copyAll s rs).2 d g (copyAll s rs).1 k sk.1 sk.2
            (by rw [hab])
          constructor
          · rw [hpres.1 r.textAddr (fun r' hr' => by
                have := (copyAll_refs_ge rs s r' hr').1
                omega)]
            exact copyAll_getText_below rs s r.textAddr ht
          · rw [hpres.2.1 r.wavAddr (fun r' hr' => by
                have := (copyAll_refs_ge rs s r' hr').2
                omega)]
            exact copyAll_getWav_below rs s r.wavAddr hw
  · intro p g tr k s rs s' rs' k' h r hr ht hw
    cases tr with
    | false =>
        rw [show ClassifierFreeGuidanceDropout.forward p g false k s rs =
          .ok (s, rs, k) from rfl] at h
        simp at h
        obtain ⟨h1, _, _⟩ := h
        subst h1
        exact ⟨rfl, rfl⟩
    | true =>
        unfold ClassifierFreeGuidanceDropout.forward at h
        rw [if_neg (by decide)] at h
        by_cases hg : g k < p
        · rw [if_pos hg] at h
          cases htp : cfgTextPhase (copyAll s rs).2 (copyAll s rs).1 with
          | error e =>
              simp only [htp] at h
              exact Except.noConfusion h
          | ok s1 =>
              simp only [htp] at h
              cases hwp : cfgWavPhase (copyAll s rs).2 s1 with
              | error e =>
                  simp only [hwp] at h
                  exact Except.noConfusion h
              | ok s2 =>
                  simp only [hwp] at h
                  simp at h
                  obtain ⟨h1, _, _⟩ := h
                  subst h1
                  have p1 := cfgTextPhase_preserve (copyAll s rs).2 (copyAll s rs).1 s1 htp
                  have p2 := cfgWavPhase_preserve (copyAll s rs).2 s1 s2 hwp
                  constructor
                  · rw [p2.1 r.textAddr (fun r' hr' => by
                        have := (copyAll_refs_ge rs s r' hr').1
                        omega),
                      p1.1 r.textAddr (fun r' hr' => by
                        have := (copyAll_refs_ge rs s r' hr').1
                        omega)]
                    exact copyAll_getText_below rs s r.textAddr ht
                  · rw [p2.2.1 r.wavAddr (fun r' hr' => by
                        have := (copyAll_refs_ge rs s r' hr').2
                        omega),
                      p1.2.1 r.wavAddr (fun r' hr' => by
                        have := (copyAll_refs_ge rs s r' hr').2
                        omega)]
                    exact copyAll_getWav_below rs s r.wavAddr hw
        · rw [if_neg hg] at h
          simp at h
          obtain ⟨h1, _, _⟩ := h
          subst h1
          exact ⟨rfl, rfl⟩

/-- C4 witness: the attribute-dropout half applied to a concrete training
call (no configured probabilities, so the copies survive unchanged), and
the classifier-free-guidance half applied to a concrete dropping call. -/
theorem C4_dropout_witness :
    (storeExCopied.getText 0 = storeEx.getText 0 ∧
      storeExCopied.getWav 0 = storeEx.getWav 0) ∧
    ((storeWavAll (copyAll storeEx refsEx).2
        (storeTextAll (copyAll storeEx refsEx).2 (copyAll storeEx refsEx).1)).getText 0 =
        storeEx.getText 0 ∧
      (storeWavAll (copyAll storeEx refsEx).2
        (storeTextAll (copyAll storeEx refsEx).2 (copyAll storeEx refsEx).1)).getWav 0 =
        storeEx.getWav 0) := by
  constructor
  · exact C4_dropout_batch_not_mutated.1 [] false true gZero 0 storeEx refsEx
      storeExCopied [⟨1, 1⟩] 0 (by decide) ⟨0, 0⟩ (by decide) (by decide) (by decide)
  · exact C4_dropout_batch_not_mutated.2 1 gZero true 0 storeEx refsEx
      (storeWavAll (copyAll storeEx refsEx).2
        (storeTextAll (copyAll storeEx refsEx).2 (copyAll storeEx refsEx).1))
      (copyAll storeEx refsEx).2 1
      (cfg_forward_drop 1 gZero 0 storeEx refsEx (by decide))
      ⟨0, 0⟩ (by decide) (by decide) (by decide)

/-- C5 (amended): `AttributeDropout` is a no-op outside training unless
constructed with `active_on_eval`, in which case its evaluation-mode
behaviour equals its training-mode behaviour; `ClassifierFreeGuidanceDropout`
is unconditionally a no-op outside training — it offers no such
configuration (its whole configuration is the probability and the seed, and
evaluation mode ignores both). -/
theorem C5_amended_eval_gating :
    (∀ (d : List (String × ℚ)) (g : Nat → ℚ) (k : Nat) (s : Store) (rs : List CARef),
        AttributeDropout.forward d false false g k s rs = .ok (s, rs, k)) ∧
    (∀ (d : List (String × ℚ)) (tr : Bool) (g : Nat → ℚ) (k : Nat) (s : Store)
        (rs : List CARef),
        AttributeDropout.forward d true tr g k s rs =
          AttributeDropout.forward d true true g k s rs) ∧
    (∀ (p : ℚ) (g : Nat → ℚ) (k : Nat) (s : Store) (rs : List CARef),
        ClassifierFreeGuidanceDropout.forward p g false k s rs = .ok (s, rs, k)) := by
  refine ⟨fun d g k s rs => ?_, fun d tr g k s rs => ?_, fun p g k s rs => ?_⟩
  · simp [AttributeDropout.forward]
  · simp [AttributeDropout.forward]
  · simp [ClassifierFreeGuidanceDropout.forward]

theorem zipWith_blend_keep (v p : List ℚ) (h : v.length = p.length) :
    List.zipWith (fun x y => x * 1 + y * (1 - 1)) v p = v := by
  induction v generalizing p with
  | nil => rfl
  | cons x xs ih =>
      cases p with
      | nil => simp at h
      | cons y ys =>
          simp only [List.zipWith]
          have hx : x * 1 + y * (1 - 1) = x := by ring
          rw [hx, ih ys (by simpa using h)]

theorem zipWith_blend_pad (v p : List ℚ) (h : v.length = p.length) :
    List.zipWith (fun x y => x * 0 + y * (1 - 0)) v p = p := by
  induction v generalizing p with
  | nil => cases p with
    | nil => rfl
    | cons y ys => simp at h
  | cons x xs ih =>
      cases p with
      | nil => simp at h
      | cons y ys =>
          simp only [List.zipWith]
          have hx : x * 0 + y * (1 - 0) = y := by ring
          rw [hx, ih ys (by simpa using h)]

theorem map_mul_one (v : List ℚ) : v.map (fun x => x * 1) = v := by
  induction v with
  | nil => rfl
  | cons x xs ih => simp [ih]

theorem map_mul_zero (v : List ℚ) :
    v.map (fun x => x * 0) = List.replicate v.length 0 := by
  induction v with
  | nil => rfl
  | cons x xs ih => simp [ih, List.replicate]

theorem forward_time_nonzero (c : BaseConditioner) (cond : Tensor3) (mask : Mask2)
    (hT : timeLen cond ≠ 0) :
    c.forward cond mask =
      (List.zipWith (fun row mrow => List.zipWith (blendFn c) row mrow)
        (cond.map (fun row => row.map c.output_proj.apply)) mask, mask) := by
  simp [BaseConditioner.forward, hT]


theorem blendFn_true_some (c : BaseConditioner) (v p : List ℚ)
    (hlp : c.learnt_padding = some p) (h : v.length = p.length) :
    blendFn c v true = v := by
  unfold blendFn
  rw [hlp]
  exact zipWith_blend_keep v p h

theorem blendFn_true_none (c : BaseConditioner) (v : List ℚ)
    (hlp : c.learnt_padding = none) :
    blendFn c v true = v := by
  unfold blendFn
  rw [hlp]
  exact map_mul_one v

theorem blendFn_false_some (c : BaseConditioner) (v p : List ℚ)
    (hlp : c.learnt_padding = some p) (h : v.length = p.length) :
    blendFn c v false = p := by
  unfold blendFn
  rw [hlp]
  exact zipWith_blend_pad v p h

theorem blendFn_false_none (c : BaseConditioner) (v : List ℚ)
    (hlp : c.learnt_padding = none) :
    blendFn c v false = List.replicate v.length 0 := by
  unfold blendFn
  rw [hlp]
  exact map_mul_zero v

/-- C7: in the returned `ConditionType`, each position where the mask is
false carries the padding value — the learnt per-channel padding vector when
padding is learnt, otherwise the zero vector — independently of the raw
condition at that position, while each position where the mask is true
carries the output-projected condition; the mask itself is returned
unchanged. -/
theorem C7_mask_padding_blend (c : BaseConditioner) (cond : Tensor3) (mask : Mask2)
    (b t : Nat)
    (hb : b < cond.length)
    (hmlen : mask.length = cond.length)
    (hrect : ∀ row ∈ cond, row.length = timeLen cond)
    (hmrow : (mask.getD b []).length = (cond.getD b []).length)
    (ht : t < timeLen cond)
    (hpad : ∀ p, c.learnt_padding = some p →
        p.length = (c.output_proj.apply (idx3v cond b t)).length) :
    idx2 (c.forward cond mask).2 b t = idx2 mask b t ∧
    (idx2 mask b t = true →
        idx3v (c.forward cond mask).1 b t = c.output_proj.apply (idx3v cond b t)) ∧
    (idx2 mask b t = false →
        idx3v (c.forward cond mask).1 b t =
          (match c.learnt_padding with
           | some p => p
           | none => List.replicate (c.output_proj.apply (idx3v cond b t)).length 0)) := by
  have hT : timeLen cond ≠ 0 := by omega
  rw [forward_time_nonzero c cond mask hT]
  have hrowlen : (cond.getD b []).length = timeLen cond := hrect _ (getD_mem cond b [] hb)
  have hbm : b < mask.length := by omega
  have hbmap : b < (cond.map (fun row => row.map c.output_proj.apply)).length := by
    simpa using hb
  have hti : t < (cond.getD b []).length := by omega
  have htm : t < (mask.getD b []).length := by omega
  have htmap : t < ((cond.getD b []).map c.output_proj.apply).length := by
    simpa using hti
  have hval : idx3v (List.zipWith (fun row mrow => List.zipWith (blendFn c) row mrow)
      (cond.map (fun row => row.map c.output_proj.apply)) mask) b t =
      blendFn c (c.output_proj.apply (idx3v cond b t)) (idx2 mask b t) := by
    unfold idx3v idx2
    rw [getD_zipWith (fun row mrow => List.zipWith (blendFn c) row mrow)
        (cond.map (fun row => row.map c.output_proj.apply)) mask b [] [] [] hbmap hbm,
      getD_map (fun row => row.map c.output_proj.apply) cond b [] [] hb,
      getD_zipWith (blendFn c) ((cond.getD b []).map c.output_proj.apply)
        (mask.getD b []) t [] false [] htmap htm,
      getD_map c.output_proj.apply (cond.getD b []) t [] [] hti]
  refine ⟨rfl, fun hm => ?_, fun hm => ?_⟩
  · rw [show idx3v (List.zipWith (fun row mrow => List.zipWith (blendFn c) row mrow)
        (cond.map (fun row => row.map c.output_proj.apply)) mask, mask).1 b t =
        idx3v (List.zipWith (fun row mrow => List.zipWith (blendFn c) row mrow)
        (cond.map (fun row => row.map c.output_proj.apply)) mask) b t from rfl,
      hval, hm]
    cases hlp : c.learnt_padding with
    | some p => exact blendFn_true_some c _ p hlp (hpad p hlp).symm
    | none => exact blendFn_true_none c _ hlp
  · rw [show idx3v (List.zipWith (fun row mrow => List.zipWith (blendFn c) row mrow)
        (cond.map (fun row => row.map c.output_proj.apply)) mask, mask).1 b t =
        idx3v (List.zipWith (fun row mrow => List.zipWith (blendFn c) row mrow)
        (cond.map (fun row => row.map c.output_proj.apply)) mask) b t from rfl,
      hval, hm]
    cases hlp : c.learnt_padding with
    | some p => exact blendFn_false_some c _ p hlp (hpad p hlp).symm
    | none => exact blendFn_false_none c _ hlp

/-- C7 witness: the theorem applied to a concrete conditioner with learnt
padding `[9]` and a `[1, 2, 1]` condition, at the valid position (mask true)
and at the padded position (mask false). -/
theorem C7_blend_witness :
    (idx2 (blendCond.forward blendInput blendMask).2 0 0 = idx2 blendMask 0 0 ∧
      (idx2 blendMask 0 0 = true →
        idx3v (blendCond.forward blendInput blendMask).1 0 0 =
          blendCond.output_proj.apply (idx3v blendInput 0 0)) ∧
      (idx2 blendMask 0 0 = false →
        idx3v (blendCond.forward blendInput blendMask).1 0 0 =
          (match blendCond.learnt_padding with
           | some p => p
           | none => List.replicate
               (blendCond.output_proj.apply (idx3v blendInput 0 0)).length 0))) ∧
    (idx2 (blendCond.forward blendInput blendMask).2 0 1 = idx2 blendMask 0 1 ∧
      (idx2 blendMask 0 1 = true →
        idx3v (blendCond.forward blendInput blendMask).1 0 1 =
          blendCond.output_proj.apply (idx3v blendInput 0 1)) ∧
      (idx2 blendMask 0 1 = false →
        idx3v (blendCond.forward blendInput blendMask).1 0 1 =
          (match blendCond.learnt_padding with
           | some p => p
           | none => List.replicate
               (blendCond.output_proj.apply (idx3v blendInput 0 1)).length 0))) := by
  constructor
  · exact C7_mask_padding_blend blendCond blendInput blendMask 0 0 (by decide)
      (by decide) (by decide) (by decide) (by decide)
      (fun p hp => by
        rw [show blendCond.learnt_padding = some [(9 : ℚ)] from rfl] at hp
        injection hp with hp'
        subst hp'
        decide)
  · exact C7_mask_padding_blend blendCond blendInput blendMask 0 1 (by decide)
      (by decide) (by decide) (by decide) (by decide)
      (fun p hp => by
        rw [show blendCond.learnt_padding = some [(9 : ℚ)] from rfl] at hp
        injection hp with hp'
        subst hp'
        decide)

theorem collateTextOne_error :
    ∀ (cs : List String) (t : TextDict) (out : TextBatches) (e : PyError),
      collateTextOne t cs out = .error e → ∃ k, e = .keyError k := by
  intro cs
  induction cs with
  | nil => intro t out e h; exact Except.noConfusion h
  | cons c cs ih =>
      intro t out e h
      rw [show collateTextOne t (c :: cs) out =
        (match lookupKey c t with
         | some v => collateTextOne t cs (appendTextBatch out c v)
         | none => .error (.keyError c)) from rfl] at h
      cases hlk : lookupKey c t with
      | some v =>
          simp only [hlk] at h
          exact ih t _ e h
      | none =>
          simp only [hlk] at h
          cases h
          exact ⟨c, rfl⟩

theorem collate_text_error :
    ∀ (P : ConditionProvider) (cas : List CAVal) (out : TextBatches) (e : PyError),
      P._collate_text cas out = .error e → ∃ k, e = .keyError k := by
  intro P cas
  induction cas with
  | nil => intro out e h; exact Except.noConfusion h
  | cons ca cas ih =>
      intro out e h
      rw [show P._collate_text (ca :: cas) out =
        (match collateTextOne ca.text P.text_conditions out with
         | .ok out' => P._collate_text cas out'
         | .error e => .error e) from rfl] at h
      cases hc : collateTextOne ca.text P.text_conditions out with
      | ok out' =>
          simp only [hc] at h
          exact ih out' e h
      | error e' =>
          simp only [hc] at h
          cases h
          exact collateTextOne_error _ _ _ _ hc

theorem appendTextBatch_fst (out : TextBatches) (k : String) (v : Option String) :
    (appendTextBatch out k v).map Prod.fst = out.map Prod.fst ∨
    (appendTextBatch out k v).map Prod.fst = out.map Prod.fst ++ [k] := by
  unfold appendTextBatch
  split
  · left
    rw [List.map_map]
    apply List.map_congr_left
    intro kv _
    by_cases h : kv.1 = k <;> simp [h]
  · right
    simp

theorem collateTextOne_keys :
    ∀ (cs : List String) (t : TextDict) (out out' : TextBatches),
      collateTextOne t cs out = .ok out' →
      ∀ k ∈ out'.map Prod.fst, k ∈ out.map Prod.fst ∨ k ∈ cs := by
  intro cs
  induction cs with
  | nil =>
      intro t out out' h k hk
      cases h
      exact Or.inl hk
  | cons c cs ih =>
      intro t out out' h k hk
      rw [show collateTextOne t (c :: cs) out =
        (match lookupKey c t with
         | some v => collateTextOne t cs (appendTextBatch out c v)
         | none => .error (.keyError c)) from rfl] at h
      cases hlk : lookupKey c t with
      | some v =>
          simp only [hlk] at h
          rcases ih t _ out' h k hk with hmem | hmem
          · rcases appendTextBatch_fst out c v with he | he
            · rw [he] at hmem; exact Or.inl hmem
            · rw [he] at hmem
              rcases List.mem_append.mp hmem with h1 | h1
              · exact Or.inl h1
              · simp at h1; subst h1; exact Or.inr (by simp)
          · exact Or.inr (by simp [hmem])
      | none => simp only [hlk] at h; exact Except.noConfusion h

theorem collate_text_keys :
    ∀ (P : ConditionProvider) (cas : List CAVal) (out out' : TextBatches),
      P._collate_text cas out = .ok out' →
      ∀ k ∈ out'.map Prod.fst, k ∈ out.map Prod.fst ∨ k ∈ P.text_conditions := by
  intro P cas
  induction cas with
  | nil =>
      intro out out' h k hk
      cases h
      exact Or.inl hk
  | cons ca cas ih =>
      intro out out' h k hk
      rw [show P._collate_text (ca :: cas) out =
        (match collateTextOne ca.text P.text_conditions out with
         | .ok out1 => P._collate_text cas out1
         | .error e => .error e) from rfl] at h
      cases hc : collateTextOne ca.text P.text_conditions out with
      | ok out1 =>
          simp only [hc] at h
          rcases ih out1 out' h k hk with hmem | hmem
          · exact collateTextOne_keys _ ca.text out out1 hc k hmem
          · exact Or.inr hmem
      | error e => simp only [hc] at h; exact Except.noConfusion h

theorem mem_text_conditions (P : ConditionProvider) (k : String)
    (h : k ∈ P.text_conditions) : k ∈ P.conditioners.map Prod.fst := by
  obtain ⟨kv, hkv, he⟩ := List.mem_filterMap.mp h
  by_cases hk : kv.2 = CondKind.text
  · rw [if_pos hk] at he
    injection he with he'
    subst he'
    exact List.mem_map_of_mem _ hkv
  · rw [if_neg hk] at he
    exact Option.noConfusion he

theorem mem_wav_conditions (P : ConditionProvider) (k : String)
    (h : k ∈ P.wav_conditions) : k ∈ P.conditioners.map Prod.fst := by
  obtain ⟨kv, hkv, he⟩ := List.mem_filterMap.mp h
  by_cases hk : kv.2 = CondKind.wav
  · rw [if_pos hk] at he
    injection he with he'
    subst he'
    exact List.mem_map_of_mem _ hkv
  · rw [if_neg hk] at he
    exact Option.noConfusion he

theorem collateWavOne_error :
    ∀ (cs : List String) (w : WavDict) (acc : WavAcc) (e : PyError),
      collateWavOne w cs acc = .error e →
      (∃ k, e = .keyError k) ∨ e = .assertionError msgWavDim ∨
        e = .assertionError msgWavLeading := by
  intro cs
  induction cs with
  | nil => intro w acc e h; exact Except.noConfusion h
  | cons c cs ih =>
      intro w acc e h
      rw [show collateWavOne w (c :: cs) acc =
        (match lookupKey c w with
         | none => .error (.keyError c)
         | some wc =>
             if wc.wav.dims.length ≠ 3 then .error (.assertionError msgWavDim)
             else if wc.wav.dims.getD 0 0 ≠ 1 then .error (.assertionError msgWavLeading)
             else collateWavOne w cs
               (appendWavEntry acc c
                 ⟨wc.wav.index0, wc.length, wc.sample_rate, wc.path, wc.seek_time⟩))
        from rfl] at h
      cases hlk : lookupKey c w with
      | none =>
          simp only [hlk] at h
          cases h
          exact Or.inl ⟨c, rfl⟩
      | some wc =>
          simp only [hlk] at h
          split at h
          · cases h; exact Or.inr (Or.inl rfl)
          · split at h
            · cases h; exact Or.inr (Or.inr rfl)
            · exact ih w _ e h

theorem wavLoop1_error :
    ∀ (cas : List CAVal) (wcs : List String) (acc : WavAcc) (e : PyError),
      wavLoop1 wcs cas acc = .error e →
      (∃ k, e = .keyError k) ∨ e = .assertionError msgWavDim ∨
        e = .assertionError msgWavLeading := by
  intro cas
  induction cas with
  | nil => intro wcs acc e h; exact Except.noConfusion h
  | cons ca cas ih =>
      intro wcs acc e h
      rw [show wavLoop1 wcs (ca :: cas) acc =
        (match collateWavOne ca.wav wcs acc with
         | .ok acc' => wavLoop1 wcs cas acc'
         | .error e => .error e) from rfl] at h
      cases hc : collateWavOne ca.wav wcs acc with
      | ok acc' =>
          simp only [hc] at h
          exact ih wcs acc' e h
      | error e' =>
          simp only [hc] at h
          cases h
          exact collateWavOne_error _ _ _ _ hc

theorem wavLoop2_error :
    ∀ (cs : List String) (acc : WavAcc) (e : PyError),
      wavLoop2 acc cs = .error e →
      e = .indexError ∨ e = .assertionError msgSampleRates := by
  intro cs
  induction cs with
  | nil => intro acc e h; exact Except.noConfusion h
  | cons c cs ih =>
      intro acc e h
      rw [show wavLoop2 acc (c :: cs) =
        (match (lookupKey c acc).getD [] with
         | [] => .error .indexError
         | e0 :: es =>
             if ((e0 :: es).all (fun x => x.sr = e0.sr)) then
               match wavLoop2 acc cs with
               | .ok rest =>
                   .ok ((c, ⟨stack_and_pad_audio ((e0 :: es).map (fun x => x.wav0)),
                         concatMap (fun x => x.length) (e0 :: es),
                         e0.sr,
                         concatMap (fun x => x.path) (e0 :: es),
                         concatMap (fun x => x.seek) (e0 :: es)⟩) :: rest)
               | .error e => .error e
             else .error (.assertionError msgSampleRates)) from rfl] at h
      cases hent : (lookupKey c acc).getD [] with
      | nil =>
          simp only [hent] at h
          cases h
          exact Or.inl rfl
      | cons e0 es =>
          simp only [hent] at h
          split at h
          · cases hr : wavLoop2 acc cs with
            | ok rest => simp only [hr] at h; exact Except.noConfusion h
            | error e' =>
                simp only [hr] at h
                cases h
                exact ih acc e hr
          · cases h
            exact Or.inr rfl

theorem collate_wavs_error (P : ConditionProvider) (samples : List CAVal) (e : PyError)
    (h : P._collate_wavs samples = .error e) :
    (∃ k, e = .keyError k) ∨ e = .assertionError msgWavDim ∨
      e = .assertionError msgWavLeading ∨ e = .indexError ∨
      e = .assertionError msgSampleRates := by
  unfold ConditionProvider._collate_wavs at h
  cases h1 : wavLoop1 P.wav_conditions samples [] with
  | ok acc =>
      rw [h1] at h
      rcases wavLoop2_error P.wav_conditions acc e h with h2 | h2
      · exact Or.inr (Or.inr (Or.inr (Or.inl h2)))
      · exact Or.inr (Or.inr (Or.inr (Or.inr h2)))
  | error e' =>
      rw [h1] at h
      cases h
      rcases wavLoop1_error samples P.wav_conditions [] e h1 with h2 | h2 | h2
      · exact Or.inl h2
      · exact Or.inr (Or.inl h2)
      · exact Or.inr (Or.inr (Or.inl h2))

theorem wavLoop2_keys :
    ∀ (cs : List String) (acc : WavAcc) (out : List (String × WavCondition)),
      wavLoop2 acc cs = .ok out → out.map Prod.fst = cs := by
  intro cs
  induction cs with
  | nil => intro acc out h; cases h; rfl
  | cons c cs ih =>
      intro acc out h
      rw [show wavLoop2 acc (c :: cs) =
        (match (lookupKey c acc).getD [] with
         | [] => .error .indexError
         | e0 :: es =>
             if ((e0 :: es).all (fun x => x.sr = e0.sr)) then
               match wavLoop2 acc cs with
               | .ok rest =>
                   .ok ((c, ⟨stack_and_pad_audio ((e0 :: es).map (fun x => x.wav0)),
                         concatMap (fun x => x.length) (e0 :: es),
                         e0.sr,
                         concatMap (fun x => x.path) (e0 :: es),
                         concatMap (fun x => x.seek) (e0 :: es)⟩) :: rest)
               | .error e => .error e
             else .error (.assertionError msgSampleRates)) from rfl] at h
      cases hent : (lookupKey c acc).getD [] with
      | nil => simp only [hent] at h; exact Except.noConfusion h
      | cons e0 es =>
          simp only [hent] at h
          split at h
          · cases hr : wavLoop2 acc cs with
            | ok rest =>
                simp only [hr] at h
                cases h
                simp [ih acc rest hr]
            | error e' => simp only [hr] at h; exact Except.noConfusion h
          · exact Except.noConfusion h

theorem mapped_fst {β γ : Type} (l : List (String × β)) (f : β → γ) :
    (l.map (fun kv => (kv.1, f kv.2))).map Prod.fst = l.map Prod.fst := by
  rw [List.map_map]
  apply List.map_congr_left
  intro kv _
  rfl

theorem prepare_subset_holds (P : ConditionProvider) (samples : List CAVal)
    (text : TextBatches) (wavs : List (String × WavCondition))
    (hct : P._collate_text samples [] = .ok text)
    (hcw : P._collate_wavs samples = .ok wavs) :
    ∀ k ∈ text.map Prod.fst ++ wavs.map Prod.fst, k ∈ P.conditioners.map Prod.fst := by
  intro k hk
  rcases List.mem_append.mp hk with hk | hk
  · rcases collate_text_keys P samples [] text hct k hk with h | h
    · simp at h
    · exact mem_text_conditions P k h
  · have hkeys : wavs.map Prod.fst = P.wav_conditions := by
      unfold ConditionProvider._collate_wavs at hcw
      cases h1 : wavLoop1 P.wav_conditions samples [] with
      | ok acc => rw [h1] at hcw; exact wavLoop2_keys P.wav_conditions acc wavs hcw
      | error e => rw [h1] at hcw; exact Except.noConfusion hcw
    rw [hkeys] at hk
    exact mem_wav_conditions P k hk

theorem prepare_missing_spec (P : ConditionProvider) (samples : List CAVal)
    (text : TextBatches) (wavs : List (String × WavCondition))
    (hct : P._collate_text samples [] = .ok text)
    (hcw : P._collate_wavs samples = .ok wavs)
    (hm : missingOf P (text.map Prod.fst) (wavs.map Prod.fst) ≠ []) :
    ConditionProvider.prepare P samples =
      .error (.runtimeMissingInputs
        (missingOf P (text.map Prod.fst) (wavs.map Prod.fst))) := by
  unfold ConditionProvider.prepare
  simp only [hct, hcw]
  have hsub := prepare_subset_holds P samples text wavs hct hcw
  rw [if_neg (fun hn => hn hsub), if_pos hm]

/-- C6 (amended): an example carrying an attribute name unknown to the
registry is silently ignored, never fatal — collation reads only registered
names, so `prepare`'s unknown-attribute assertion can never fire; whenever
`prepare` succeeds every registered conditioner received an input; and when
the collated attribute names leave some registered conditioner unfed,
`prepare` fails with the missing-input error naming exactly the missing
conditioners. -/
theorem C6_prepare_amended :
    (∀ (P : ConditionProvider) (samples : List CAVal),
        ConditionProvider.prepare P samples ≠ .error (.assertionError msgUnexpectedAttr)) ∧
    (∀ (P : ConditionProvider) (samples : List CAVal) (out : List (String × PreparedVal)),
        ConditionProvider.prepare P samples = .ok out →
        ∀ name ∈ P.conditioners.map Prod.fst, (lookupKey name out).isSome = true) ∧
    (∀ (P : ConditionProvider) (samples : List CAVal) (text : TextBatches)
        (wavs : List (String × WavCondition)),
        P._collate_text samples [] = .ok text →
        P._collate_wavs samples = .ok wavs →
        missingOf P (text.map Prod.fst) (wavs.map Prod.fst) ≠ [] →
        ConditionProvider.prepare P samples =
          .error (.runtimeMissingInputs
            (missingOf P (text.map Prod.fst) (wavs.map Prod.fst)))) := by
  refine ⟨?_, ?_, ?_⟩
  · intro P samples heq
    unfold ConditionProvider.prepare at heq
    cases hct : P._collate_text samples [] with
    | error e =>
        simp only [hct] at heq
        obtain ⟨k, hk⟩ := collate_text_error P samples [] e hct
        subst hk
        cases heq
    | ok text =>
        simp only [hct] at heq
        cases hcw : P._collate_wavs samples with
        | error e =>
            simp only [hcw] at heq
            cases heq
            rcases collate_wavs_error P samples _ hcw with ⟨k, hk⟩ | hk | hk | hk | hk
            · exact PyError.noConfusion hk
            · exact absurd hk (by decide)
            · exact absurd hk (by decide)
            · exact PyError.noConfusion hk
            · exact absurd hk (by decide)
        | ok wavs =>
            simp only [hcw] at heq
            have hsub := prepare_subset_holds P samples text wavs hct hcw
            rw [if_neg (fun hn => hn hsub)] at heq
            by_cases hm : missingOf P (text.map Prod.fst) (wavs.map Prod.fst) ≠ []
            · rw [if_pos hm] at heq
              cases heq
            · rw [if_neg hm] at heq
              exact Except.noConfusion heq
  · intro P samples out hok name hname
    unfold ConditionProvider.prepare at hok
    cases hct : P._collate_text samples [] with
    | error e => simp only [hct] at hok; exact Except.noConfusion hok
    | ok text =>
        simp only [hct] at hok
        cases hcw : P._collate_wavs samples with
        | error e => simp only [hcw] at hok; exact Except.noConfusion hok
        | ok wavs =>
            simp only [hcw] at hok
            have hsub := prepare_subset_holds P samples text wavs hct hcw
            rw [if_neg (fun hn => hn hsub)] at hok
            by_cases hm : missingOf P (text.map Prod.fst) (wavs.map Prod.fst) ≠ []
            · rw [if_pos hm] at hok; exact Except.noConfusion hok
            · rw [if_neg hm] at hok
              cases hok
              rw [lookupKey_isSome_iff]
              rw [List.map_append, mapped_fst, mapped_fst]
              rw [not_not] at hm
              have hall : ∀ k ∈ P.conditioners.map Prod.fst,
                  ¬(k ∉ text.map Prod.fst ∧ k ∉ wavs.map Prod.fst) := by
                intro k hk hc
                have : k ∈ missingOf P (text.map Prod.fst) (wavs.map Prod.fst) := by
                  unfold missingOf
                  rw [List.mem_filter]
                  exact ⟨hk, by simpa using hc⟩
                rw [hm] at this
                simp at this
              have := hall name hname
              rw [not_and_or, not_not, not_not] at this
              exact List.mem_append.mpr this
  · exact prepare_missing_spec

/-- C6 witness: the amended theorem applied to the one-conditioner registry:
`prepare` on a complete batch never hits the unknown-attribute assertion and
covers the registry; `prepare` on an empty batch fails naming `genre`. -/
theorem C6_prepare_witness :
    (ConditionProvider.prepare provText [caGenre] ≠
      .error (.assertionError msgUnexpectedAttr)) ∧
    ((lookupKey genreK prepOutText).isSome = true) ∧
    (ConditionProvider.prepare provText [] =
      .error (.runtimeMissingInputs (missingOf provText [] []))) := by
  refine ⟨C6_prepare_amended.1 provText [caGenre], ?_, ?_⟩
  · exact C6_prepare_amended.2.1 provText [caGenre] prepOutText (by decide) genreK (by decide)
  · exact C6_prepare_amended.2.2 provText [] [] [] (by decide) (by decide) (by decide)

theorem missingOf_nil_nil (P : ConditionProvider) :
    missingOf P [] [] = P.conditioners.map Prod.fst := by
  unfold missingOf
  rw [List.filter_eq_self.mpr]
  intro a _
  simp

/-- C10 (amended): `prepare` on an empty batch with a nonempty registry of
text conditioners only raises the missing-input error naming every
registered conditioner; but as soon as a waveform conditioner is registered,
the empty batch instead fails with the `IndexError` from
`sample_rates[attribute][0]` in `_collate_wavs`, without naming the
conditioners. -/
theorem C10_empty_batch_amended :
    (∀ P : ConditionProvider, P.wav_conditions = [] → P.conditioners ≠ [] →
        ConditionProvider.prepare P [] =
          .error (.runtimeMissingInputs (P.conditioners.map Prod.fst))) ∧
    (∀ P : ConditionProvider, P.wav_conditions ≠ [] →
        ConditionProvider.prepare P [] = .error .indexError) := by
  constructor
  · intro P hw hne
    have hcw : P._collate_wavs [] = .ok [] := by
      unfold ConditionProvider._collate_wavs
      rw [show wavLoop1 P.wav_conditions [] [] = .ok [] from rfl]
      show wavLoop2 [] P.wav_conditions = .ok []
      rw [hw]
      rfl
    have hct : P._collate_text [] [] = .ok ([] : TextBatches) := rfl
    have h3 := fun hm => prepare_missing_spec P [] [] [] hct hcw hm
    rw [show (([] : TextBatches)).map Prod.fst = [] from rfl,
      show (([] : List (String × WavCondition))).map Prod.fst = [] from rfl,
      missingOf_nil_nil P] at h3
    exact h3 (by simpa using hne)
  · intro P hw
    have hcw : P._collate_wavs [] = .error .indexError := by
      unfold ConditionProvider._collate_wavs
      rw [show wavLoop1 P.wav_conditions [] [] = .ok [] from rfl]
      show wavLoop2 [] P.wav_conditions = .error .indexError
      cases hwc : P.wav_conditions with
      | nil => exact absurd hwc hw
      | cons c cs => rfl
    unfold ConditionProvider.prepare
    rw [show P._collate_text [] [] = .ok ([] : TextBatches) from rfl]
    simp only [hcw]

/-- C10 witness: the amended theorem applied to the text-only registry and
to the waveform registry. -/
theorem C10_empty_batch_witness :
    ConditionProvider.prepare provText [] =
      .error (.runtimeMissingInputs (provText.conditioners.map Prod.fst)) ∧
    ConditionProvider.prepare provWav [] = .error .indexError :=
  ⟨C10_empty_batch_amended.1 provText (by decide) (by decide),
   C10_empty_batch_amended.2 provWav (by decide)⟩

theorem collateWavOne_checks :
    ∀ (cs : List String) (w : WavDict) (acc acc' : WavAcc),
      collateWavOne w cs acc = .ok acc' →
      ∀ c ∈ cs, ∃ wc, lookupKey c w = some wc ∧
        wc.wav.dims.length = 3 ∧ wc.wav.dims.getD 0 0 = 1 := by
  intro cs
  induction cs with
  | nil => intro w acc acc' _ c hc; simp at hc
  | cons c0 cs ih =>
      intro w acc acc' h c hc
      rw [show collateWavOne w (c0 :: cs) acc =
        (match lookupKey c0 w with
         | none => .error (.keyError c0)
         | some wc =>
             if wc.wav.dims.length ≠ 3 then .error (.assertionError msgWavDim)
             else if wc.wav.dims.getD 0 0 ≠ 1 then .error (.assertionError msgWavLeading)
             else collateWavOne w cs
               (appendWavEntry acc c0
                 ⟨wc.wav.index0, wc.length, wc.sample_rate, wc.path, wc.seek_time⟩))
        from rfl] at h
      cases hlk : lookupKey c0 w with
      | none => simp only [hlk] at h; exact Except.noConfusion h
      | some wc =>
          simp only [hlk] at h
          by_cases h3 : wc.wav.dims.length ≠ 3
          · rw [if_pos h3] at h; exact Except.noConfusion h
          · rw [if_neg h3] at h
            by_cases h1 : wc.wav.dims.getD 0 0 ≠ 1
            · rw [if_pos h1] at h; exact Except.noConfusion h
            · rw [if_neg h1] at h
              rcases List.mem_cons.mp hc with heq | hmem
              · subst heq
                exact ⟨wc, hlk, not_not.mp h3, not_not.mp h1⟩
              · exact ih w _ acc' h c hmem

theorem wavLoop1_checks :
    ∀ (cas : List CAVal) (wcs : List String) (acc acc' : WavAcc),
      wavLoop1 wcs cas acc = .ok acc' →
      ∀ ca ∈ cas, ∀ c ∈ wcs, ∃ wc, lookupKey c ca.wav = some wc ∧
        wc.wav.dims.length = 3 ∧ wc.wav.dims.getD 0 0 = 1 := by
  intro cas
  induction cas with
  | nil => intro wcs acc acc' _ ca hca; simp at hca
  | cons ca0 cas ih =>
      intro wcs acc acc' h ca hca
      rw [show wavLoop1 wcs (ca0 :: cas) acc =
        (match collateWavOne ca0.wav wcs acc with
         | .ok acc1 => wavLoop1 wcs cas acc1
         | .error e => .error e) from rfl] at h
      cases hc : collateWavOne ca0.wav wcs acc with
      | error e => simp only [hc] at h; exact Except.noConfusion h
      | ok acc1 =>
          simp only [hc] at h
          rcases List.mem_cons.mp hca with heq | hmem
          · subst heq
            exact collateWavOne_checks wcs ca.wav acc acc1 hc
          · exact ih wcs acc1 acc' h ca hmem

theorem lookupKey_append_none {β : Type} :
    ∀ (l1 l2 : List (String × β)) (k : String),
      lookupKey k l1 = none → lookupKey k (l1 ++ l2) = lookupKey k l2 := by
  intro l1
  induction l1 with
  | nil => intro l2 k _; rfl
  | cons kv l1 ih =>
      intro l2 k h
      rw [show lookupKey k (kv :: l1) =
        (if kv.1 = k then some kv.2 else lookupKey k l1) from rfl] at h
      by_cases hk : kv.1 = k
      · rw [if_pos hk] at h; exact Option.noConfusion h
      · rw [if_neg hk] at h
        rw [List.cons_append,
          show lookupKey k (kv :: (l1 ++ l2)) =
            (if kv.1 = k then some kv.2 else lookupKey k (l1 ++ l2)) from rfl,
          if_neg hk]
        exact ih l2 k h

theorem lookupKey_append_some {β : Type} :
    ∀ (l1 l2 : List (String × β)) (k : String) (v : β),
      lookupKey k l1 = some v → lookupKey k (l1 ++ l2) = some v := by
  intro l1
  induction l1 with
  | nil => intro l2 k v h; exact Option.noConfusion h
  | cons kv l1 ih =>
      intro l2 k v h
      rw [show lookupKey k (kv :: l1) =
        (if kv.1 = k then some kv.2 else lookupKey k l1) from rfl] at h
      rw [List.cons_append,
        show lookupKey k (kv :: (l1 ++ l2)) =
          (if kv.1 = k then some kv.2 else lookupKey k (l1 ++ l2)) from rfl]
      by_cases hk : kv.1 = k
      · rw [if_pos hk] at h; rw [if_pos hk]; exact h
      · rw [if_neg hk] at h; rw [if_neg hk]; exact ih l2 k v h

theorem lookupKey_map_extend :
    ∀ (acc : WavAcc) (k : String) (e : WavEntry) (es : List WavEntry),
      lookupKey k acc = some es →
      lookupKey k (acc.map (fun kv => if kv.1 = k then (kv.1, kv.2 ++ [e]) else kv)) =
        some (es ++ [e]) := by
  intro acc
  induction acc with
  | nil => intro k e es h; exact Option.noConfusion h
  | cons kv acc ih =>
      intro k e es h
      rw [show lookupKey k (kv :: acc) =
        (if kv.1 = k then some kv.2 else lookupKey k acc) from rfl] at h
      by_cases hk : kv.1 = k
      · rw [if_pos hk] at h
        injection h with h'
        subst h'
        rw [List.map_cons, if_pos hk,
          show lookupKey k ((kv.1, kv.2 ++ [e]) ::
            acc.map (fun kv' => if kv'.1 = k then (kv'.1, kv'.2 ++ [e]) else kv')) =
            (if kv.1 = k then some (kv.2 ++ [e])
             else lookupKey k (acc.map
               (fun kv' => if kv'.1 = k then (kv'.1, kv'.2 ++ [e]) else kv'))) from rfl,
          if_pos hk]
      · rw [if_neg hk] at h
        rw [List.map_cons, if_neg hk,
          show lookupKey k (kv ::
            acc.map (fun kv' => if kv'.1 = k then (kv'.1, kv'.2 ++ [e]) else kv')) =
            (if kv.1 = k then some kv.2
             else lookupKey k (acc.map
               (fun kv' => if kv'.1 = k then (kv'.1, kv'.2 ++ [e]) else kv'))) from rfl,
          if_neg hk]
        exact ih k e es h

theorem lookupEntries_append_self (acc : WavAcc) (k : String) (e : WavEntry) :
    lookupEntries (appendWavEntry acc k e) k = lookupEntries acc k ++ [e] := by
  unfold appendWavEntry
  by_cases hs : (lookupKey k acc).isSome = true
  · rw [if_pos hs]
    obtain ⟨es, hes⟩ := Option.isSome_iff_exists.mp hs
    unfold lookupEntries
    rw [hes, lookupKey_map_extend acc k e es hes]
    rfl
  · rw [if_neg hs]
    have hn : lookupKey k acc = none := Option.not_isSome_iff_eq_none.mp hs
    unfold lookupEntries
    rw [hn, lookupKey_append_none acc [(k, [e])] k hn,
      show lookupKey k [(k, [e])] = if k = k then some [e] else none from rfl,
      if_pos rfl]
    rfl

theorem appendWavEntry_lookup_ne (acc : WavAcc) (k : String) (e : WavEntry)
    (c : String) (h : c ≠ k) :
    lookupKey c (appendWavEntry acc k e) = lookupKey c acc := by
  unfold appendWavEntry
  by_cases hs : (lookupKey k acc).isSome = true
  · rw [if_pos hs]
    clear hs
    induction acc with
    | nil => rfl
    | cons kv acc ih =>
        rw [List.map_cons]
        by_cases hk : kv.1 = k
        · rw [if_pos hk]
          rw [show lookupKey c ((kv.1, kv.2 ++ [e]) ::
              acc.map (fun kv' => if kv'.1 = k then (kv'.1, kv'.2 ++ [e]) else kv')) =
              (if kv.1 = c then some (kv.2 ++ [e])
               else lookupKey c (acc.map
                 (fun kv' => if kv'.1 = k then (kv'.1, kv'.2 ++ [e]) else kv'))) from rfl,
            show lookupKey c (kv :: acc) =
              (if kv.1 = c then some kv.2 else lookupKey c acc) from rfl,
            if_neg (by rw [hk]; exact Ne.symm h), if_neg (by rw [hk]; exact Ne.symm h)]
          exact ih
        · rw [if_neg hk]
          rw [show lookupKey c (kv ::
              acc.map (fun kv' => if kv'.1 = k then (kv'.1, kv'.2 ++ [e]) else kv')) =
              (if kv.1 = c then some kv.2
               else lookupKey c (acc.map
                 (fun kv' => if kv'.1 = k then (kv'.1, kv'.2 ++ [e]) else kv'))) from rfl,
            show lookupKey c (kv :: acc) =
              (if kv.1 = c then some kv.2 else lookupKey c acc) from rfl]
          by_cases hc : kv.1 = c
          · rw [if_pos hc, if_pos hc]
          · rw [if_neg hc, if_neg hc]
            exact ih
  · rw [if_neg hs]
    have hn : lookupKey k acc = none := Option.not_isSome_iff_eq_none.mp hs
    by_cases hca : (lookupKey c acc).isSome = true
    · obtain ⟨v, hv⟩ := Option.isSome_iff_exists.mp hca
      rw [lookupKey_append_some acc [(k, [e])] c v hv, hv]
    · have hcn : lookupKey c acc = none := Option.not_isSome_iff_eq_none.mp hca
      rw [lookupKey_append_none acc [(k, [e])] c hcn, hcn,
        show lookupKey c [(k, [e])] = if k = c then some [e] else none from rfl,
        if_neg (Ne.symm h)]

theorem collateWavOne_char :
    ∀ (cs : List String) (w : WavDict) (acc acc' : WavAcc),
      cs.Nodup →
      collateWavOne w cs acc = .ok acc' →
      (∀ c ∈ cs, lookupEntries acc' c = lookupEntries acc c ++ [entryOfW w c]) ∧
      (∀ c, c ∉ cs → lookupKey c acc' = lookupKey c acc) := by
  intro cs
  induction cs with
  | nil =>
      intro w acc acc' _ h
      cases h
      exact ⟨fun c hc => by simp at hc, fun c _ => rfl⟩
  | cons c0 cs ih =>
      intro w acc acc' hnd h
      have hnd1 : c0 ∉ cs := (List.nodup_cons.mp hnd).1
      have hnd2 : cs.Nodup := (List.nodup_cons.mp hnd).2
      rw [show collateWavOne w (c0 :: cs) acc =
        (match lookupKey c0 w with
         | none => .error (.keyError c0)
         | some wc =>
             if wc.wav.dims.length ≠ 3 then .error (.assertionError msgWavDim)
             else if wc.wav.dims.getD 0 0 ≠ 1 then .error (.assertionError msgWavLeading)
             else collateWavOne w cs
               (appendWavEntry acc c0
                 ⟨wc.wav.index0, wc.length, wc.sample_rate, wc.path, wc.seek_time⟩))
        from rfl] at h
      cases hlk : lookupKey c0 w with
      | none => simp only [hlk] at h; exact Except.noConfusion h
      | some wc =>
          simp only [hlk] at h
          by_cases h3 : wc.wav.dims.length ≠ 3
          · rw [if_pos h3] at h; exact Except.noConfusion h
          · rw [if_neg h3] at h
            by_cases h1 : wc.wav.dims.getD 0 0 ≠ 1
            · rw [if_pos h1] at h; exact Except.noConfusion h
            · rw [if_neg h1] at h
              have hent : (⟨wc.wav.index0, wc.length, wc.sample_rate, wc.path,
                  wc.seek_time⟩ : WavEntry) = entryOfW w c0 := by
                unfold entryOfW
                rw [hlk]
              have hih := ih w _ acc' hnd2 h
              constructor
              · intro c hc
                rcases List.mem_cons.mp hc with heq | hmem
                · subst heq
                  rw [show lookupEntries acc' c = (lookupKey c acc').getD [] from rfl,
                    hih.2 c hnd1, ← hent]
                  rw [show (lookupKey c (appendWavEntry acc c
                      ⟨wc.wav.index0, wc.length, wc.sample_rate, wc.path,
                        wc.seek_time⟩)).getD [] =
                    lookupEntries (appendWavEntry acc c
                      ⟨wc.wav.index0, wc.length, wc.sample_rate, wc.path,
                        wc.seek_time⟩) c from rfl,
                    lookupEntries_append_self]
                · have hne : c ≠ c0 := fun he => hnd1 (he ▸ hmem)
                  rw [hih.1 c hmem]
                  unfold lookupEntries
                  rw [appendWavEntry_lookup_ne acc c0 _ c hne]
              · intro c hc
                have hc0 : c ≠ c0 := fun he => hc (by simp [he])
                have hcs : c ∉ cs := fun hm => hc (by simp [hm])
                rw [hih.2 c hcs, appendWavEntry_lookup_ne acc c0 _ c hc0]

theorem wavLoop1_char :
    ∀ (cas : List CAVal) (wcs : List String) (acc acc' : WavAcc),
      wcs.Nodup →
      wavLoop1 wcs cas acc = .ok acc' →
      ∀ c ∈ wcs, lookupEntries acc' c =
        lookupEntries acc c ++ cas.map (fun ca => entryOfW ca.wav c) := by
  intro cas
  induction cas with
  | nil =>
      intro wcs acc acc' _ h c _
      cases h
      simp
  | cons ca0 cas ih =>
      intro wcs acc acc' hnd h c hc
      rw [show wavLoop1 wcs (ca0 :: cas) acc =
        (match collateWavOne ca0.wav wcs acc with
         | .ok acc1 => wavLoop1 wcs cas acc1
         | .error e => .error e) from rfl] at h
      cases hco : collateWavOne ca0.wav wcs acc with
      | error e => simp only [hco] at h; exact Except.noConfusion h
      | ok acc1 =>
          simp only [hco] at h
          have hchar := (collateWavOne_char wcs ca0.wav acc acc1 hnd hco).1 c hc
          rw [ih wcs acc1 acc' hnd h c hc, hchar, List.map_cons, List.append_assoc]
          rfl

theorem wavLoop2_ok :
    ∀ (cs : List String) (acc : WavAcc) (out : List (String × WavCondition)),
      cs.Nodup →
      wavLoop2 acc cs = .ok out →
      ∀ c ∈ cs, ∃ e0 es, lookupEntries acc c = e0 :: es ∧
        (∀ e ∈ e0 :: es, e.sr = e0.sr) ∧
        lookupKey c out = some ⟨stack_and_pad_audio ((e0 :: es).map (fun x => x.wav0)),
          concatMap (fun x => x.length) (e0 :: es), e0.sr,
          concatMap (fun x => x.path) (e0 :: es),
          concatMap (fun x => x.seek) (e0 :: es)⟩ := by
  intro cs
  induction cs with
  | nil => intro acc out _ _ c hc; simp at hc
  | cons c0 cs ih =>
      intro acc out hnd h c hc
      have hnd1 : c0 ∉ cs := (List.nodup_cons.mp hnd).1
      have hnd2 : cs.Nodup := (List.nodup_cons.mp hnd).2
      rw [show wavLoop2 acc (c0 :: cs) =
        (match (lookupKey c0 acc).getD [] with
         | [] => .error .indexError
         | e0 :: es =>
             if ((e0 :: es).all (fun x => x.sr = e0.sr)) then
               match wavLoop2 acc cs with
               | .ok rest =>
                   .ok ((c0, ⟨stack_and_pad_audio ((e0 :: es).map (fun x => x.wav0)),
                         concatMap (fun x => x.length) (e0 :: es),
                         e0.sr,
                         concatMap (fun x => x.path) (e0 :: es),
                         concatMap (fun x => x.seek) (e0 :: es)⟩) :: rest)
               | .error e => .error e
             else .error (.assertionError msgSampleRates)) from rfl] at h
      cases hent : (lookupKey c0 acc).getD [] with
      | nil => simp only [hent] at h; exact Except.noConfusion h
      | cons e0 es =>
          simp only [hent] at h
          split at h
          · cases hr : wavLoop2 acc cs with
            | error e => simp only [hr] at h; exact Except.noConfusion h
            | ok rest =>
                simp only [hr] at h
                cases h
                rcases List.mem_cons.mp hc with heq | hmem
                · subst heq
                  refine ⟨e0, es, hent, ?_, ?_⟩
                  · intro e he
                    have hall : ((e0 :: es).all (fun x => x.sr = e0.sr)) = true := by
                      assumption
                    rw [List.all_eq_true] at hall
                    have := hall e he
                    simpa using this
                  · rw [show lookupKey c ((c, _) :: rest) =
                      (if c = c then some _ else lookupKey c rest) from rfl, if_pos rfl]
                · have hne : c0 ≠ c := fun he => hnd1 (he ▸ hmem)
                  obtain ⟨e0', es', h1, h2, h3⟩ := ih acc rest hnd2 hr c hmem
                  refine ⟨e0', es', h1, h2, ?_⟩
                  rw [show lookupKey c ((c0, _) :: rest) =
                    (if c0 = c then some _ else lookupKey c rest) from rfl,
                    if_neg hne]
                  exact h3
          · exact Except.noConfusion h

theorem wav_conditions_sublist (P : ConditionProvider) :
    P.wav_conditions.Sublist (P.conditioners.map Prod.fst) := by
  unfold ConditionProvider.wav_conditions
  induction P.conditioners with
  | nil => simp
  | cons kv l ih =>
      rw [List.filterMap_cons, List.map_cons]
      by_cases hk : kv.2 = CondKind.wav
      · rw [if_pos hk]
        exact List.Sublist.cons₂ kv.1 ih
      · rw [if_neg hk]
        exact List.Sublist.cons kv.1 ih

theorem concatMap_map {α β γ : Type} (f : β → List γ) (g : α → β) :
    ∀ l : List α, concatMap f (l.map g) = concatMap (fun x => f (g x)) l := by
  intro l
  induction l with
  | nil => rfl
  | cons a l ih => simp [concatMap, ih]

/-- C9: whenever `_collate_wavs` succeeds on a batch, every example's
waveform tensor for every registered waveform attribute was present,
rank-3 and of leading dimension 1; all examples declared the same sample
rate per attribute; and the output carries the per-example lengths, paths
and seek times through unchanged (concatenated in batch order). By
contraposition, a wrong-rank/wrong-leading-dimension tensor or a
sample-rate mismatch makes the collation fail fatally. -/
theorem C9_collate_wavs_validation (P : ConditionProvider) (samples : List CAVal)
    (hnd : (P.conditioners.map Prod.fst).Nodup)
    (out : List (String × WavCondition))
    (hok : P._collate_wavs samples = .ok out) :
    (∀ ca ∈ samples, ∀ c ∈ P.wav_conditions, ∃ wc, lookupKey c ca.wav = some wc ∧
        wc.wav.dims.length = 3 ∧ wc.wav.dims.getD 0 0 = 1) ∧
    (∀ c ∈ P.wav_conditions, ∀ ca1 ∈ samples, ∀ ca2 ∈ samples,
        (entryOfW ca1.wav c).sr = (entryOfW ca2.wav c).sr) ∧
    (∀ c ∈ P.wav_conditions, ∃ wc, lookupKey c out = some wc ∧
        wc.length = concatMap (fun ca => (entryOfW ca.wav c).length) samples ∧
        wc.path = concatMap (fun ca => (entryOfW ca.wav c).path) samples ∧
        wc.seek_time = concatMap (fun ca => (entryOfW ca.wav c).seek) samples) := by
  have hndw : P.wav_conditions.Nodup := (wav_conditions_sublist P).nodup hnd
  unfold ConditionProvider._collate_wavs at hok
  cases h1 : wavLoop1 P.wav_conditions samples [] with
  | error e => rw [h1] at hok; exact Except.noConfusion hok
  | ok acc =>
      rw [h1] at hok
      have hchar : ∀ c ∈ P.wav_conditions,
          lookupEntries acc c = samples.map (fun ca => entryOfW ca.wav c) := by
        intro c hc
        have := wavLoop1_char samples P.wav_conditions [] acc hndw h1 c hc
        rw [show lookupEntries [] c = [] from rfl] at this
        simpa using this
      have hloop2 := wavLoop2_ok P.wav_conditions acc out hndw hok
      refine ⟨wavLoop1_checks samples P.wav_conditions [] acc h1, ?_, ?_⟩
      · intro c hc ca1 hca1 ca2 hca2
        obtain ⟨e0, es, hent, hall, _⟩ := hloop2 c hc
        rw [hchar c hc] at hent
        have hm1 : entryOfW ca1.wav c ∈ e0 :: es := by
          rw [← hent]
          exact List.mem_map_of_mem _ hca1
        have hm2 : entryOfW ca2.wav c ∈ e0 :: es := by
          rw [← hent]
          exact List.mem_map_of_mem _ hca2
        rw [hall _ hm1, hall _ hm2]
      · intro c hc
        obtain ⟨e0, es, hent, _, h3⟩ := hloop2 c hc
        rw [hchar c hc] at hent
        refine ⟨_, h3, ?_, ?_, ?_⟩
        · rw [← hent]
          simp only [concatMap_map]
        · rw [← hent]
          simp only [concatMap_map]
        · rw [← hent]
          simp only [concatMap_map]

/-- C9 witness: the theorem applied to the waveform registry with a concrete
well-formed one-sample batch. -/
theorem C9_collate_wavs_witness :
    (∀ ca ∈ [caWav], ∀ c ∈ provWav.wav_conditions, ∃ wc,
        lookupKey c ca.wav = some wc ∧
        wc.wav.dims.length = 3 ∧ wc.wav.dims.getD 0 0 = 1) ∧
    (∀ c ∈ provWav.wav_conditions, ∀ ca1 ∈ [caWav], ∀ ca2 ∈ [caWav],
        (entryOfW ca1.wav c).sr = (entryOfW ca2.wav c).sr) ∧
    (∀ c ∈ provWav.wav_conditions, ∃ wc, lookupKey c collateOutWav = some wc ∧
        wc.length = concatMap (fun ca => (entryOfW ca.wav c).length) [caWav] ∧
        wc.path = concatMap (fun ca => (entryOfW ca.wav c).path) [caWav] ∧
        wc.seek_time = concatMap (fun ca => (entryOfW ca.wav c).seek) [caWav]) :=
  C9_collate_wavs_validation provWav [caWav] (by decide) collateOutWav (by decide)
